import Mathlib

/-!
# Verification of the burnchain DB and affirmation engine

A shallow embedding of `src/burnchains/db.rs` (the `BurnchainDB` store, its
transaction methods, and the canonical affirmation-map selector).  SQL tables
become Lean lists of row structures; `query_row` over an unordered `WHERE`
clause becomes "first matching row in insertion order"; a Rust `panic!` /
`assert!` / `.expect(..)` (and a propagated `Err`) becomes `Option.none` on
the function's result.  Fixed-width byte-string identifiers (block hashes,
txids) are modelled as `Nat`: the database stores them as fixed-width hex
TEXT, whose lexicographic order agrees with the numeric order.
-/

/-- One entry of an affirmation map.  Modelled from the spec:
`burnchains/affirmation.rs` is not part of the sources under review; the spec
gives the alphabet {Nothing (N), PoxAnchorBlockPresent (P),
PoxAnchorBlockAbsent (A)}. -/
inductive AffirmationMapEntry where
  | PoxAnchorBlockPresent : AffirmationMapEntry
  | PoxAnchorBlockAbsent : AffirmationMapEntry
  | Nothing : AffirmationMapEntry
deriving DecidableEq, Repr

/-- An affirmation map.  Modelled from the spec: an ordered sequence of
entries, the i-th entry describing reward cycle i+1; `push` appends at the
end; maps are interned by their (injective) string encoding, so equality of
encodings coincides with equality of entry lists. -/
abbrev AffirmationMap := List AffirmationMapEntry

/-- Weight of an affirmation map.  Modelled from the spec: the count of
non-Nothing entries. -/
def AffirmationMap.weight (am : AffirmationMap) : Nat :=
  am.countP (fun e => e ≠ AffirmationMapEntry.Nothing)

/-- `i64::MAX as u64`, the sentinel reward cycle (`NO_ANCHOR_BLOCK`,
db.rs line 69). -/
def NO_ANCHOR_BLOCK : Nat := 9223372036854775807

/-- A burnchain block header row (`burnchain_db_block_headers`;
`BurnchainBlockHeader` is consumed by db.rs through `FromRow`,
db.rs lines 167-183). -/
structure BurnchainBlockHeader where
  block_height : Nat
  block_hash : Nat
  parent_block_hash : Nat
  num_txs : Nat
  timestamp : Nat
deriving DecidableEq, Repr

/-- The fields of `LeaderBlockCommitOp` that db.rs reads
(burn_header_hash, txid, block_height, vtxindex, parent_block_ptr,
parent_vtxindex).  The op type itself lives outside the reviewed sources;
only these fields are consumed by db.rs. -/
structure LeaderBlockCommitOp where
  txid : Nat
  burn_header_hash : Nat
  block_height : Nat
  vtxindex : Nat
  parent_block_ptr : Nat
  parent_vtxindex : Nat
deriving DecidableEq, Repr

/-- `BlockCommitMetadata` (db.rs lines 71-83): `anchor_block` and
`anchor_block_descendant` are `Option<u64>`, stored in the DB as the
sentinel `NO_ANCHOR_BLOCK` when `None` (db.rs lines 106-118, 832-833). -/
structure BlockCommitMetadata where
  burn_block_hash : Nat
  txid : Nat
  block_height : Nat
  vtxindex : Nat
  affirmation_id : Nat
  anchor_block : Option Nat
  anchor_block_descendant : Option Nat
deriving DecidableEq, Repr

/-- The u64 value actually stored in the `anchor_block` column
(db.rs line 832: `anchor_block.unwrap_or(NO_ANCHOR_BLOCK)`). -/
def BlockCommitMetadata.anchorBlockVal (m : BlockCommitMetadata) : Nat :=
  m.anchor_block.getD NO_ANCHOR_BLOCK

/-- A stored blockstack operation: db.rs only ever discriminates on whether
an op is a `LeaderBlockCommit` (other variants are opaque here, carried with
their txid). -/
inductive BlockstackOperationType where
  | LeaderBlockCommit : LeaderBlockCommitOp → BlockstackOperationType
  | Other : Nat → BlockstackOperationType
deriving DecidableEq, Repr

/-- The txid of a stored operation. -/
def BlockstackOperationType.txid : BlockstackOperationType → Nat
  | .LeaderBlockCommit op => op.txid
  | .Other t => t

/-- A row of `burnchain_db_block_ops` (schema, db.rs lines 206-212). -/
structure BlockOpRow where
  block_hash : Nat
  txid : Nat
  op : BlockstackOperationType
deriving DecidableEq, Repr

/-- A row of `affirmation_maps` (schema, db.rs lines 214-218). -/
structure AffirmationMapRow where
  affirmation_id : Nat
  weight : Nat
  affirmation_map : AffirmationMap
deriving DecidableEq, Repr

/-- A row of `overrides` (schema, db.rs lines 241-244). -/
structure OverrideRow where
  reward_cycle : Nat
  affirmation_map : AffirmationMap
deriving DecidableEq, Repr

/-- The whole `BurnchainDB` database state: one list per table, in row
insertion order (SQLite yields rows of an unordered query in rowid order,
which for these tables is insertion order). -/
structure BurnchainDBState where
  headers : List BurnchainBlockHeader
  block_ops : List BlockOpRow
  affirmation_maps : List AffirmationMapRow
  anchor_blocks : List Nat
  block_commit_metadata : List BlockCommitMetadata
  overrides : List OverrideRow
deriving DecidableEq, Repr

/-- External burnchain parameters consumed by db.rs.  Modelled from the spec:
`Burnchain` lives outside the reviewed sources; db.rs consumes
`block_height_to_reward_cycle` and the external helper
`get_parent_child_reward_cycles` (which returns the (parent_cycle,
child_cycle) pair iff the pair is a valid parent-to-child relationship). -/
structure Burnchain where
  block_height_to_reward_cycle : Nat → Option Nat
  get_parent_child_reward_cycles :
    LeaderBlockCommitOp → LeaderBlockCommitOp → Option (Nat × Nat)

/-- The `BurnchainHeaderReader` collaborator (trait, db.rs lines 60-67);
`read_burnchain_headers start end` returns the headers in `[start, end)`. -/
structure BurnchainHeaderReader where
  read_burnchain_headers : Nat → Nat → List BurnchainBlockHeader

/-- `ORDER BY block_height DESC, block_hash ASC`: `a` sorts strictly before
`b`. -/
def tip_better (a b : BurnchainBlockHeader) : Bool :=
  b.block_height < a.block_height ||
    (a.block_height == b.block_height && a.block_hash < b.block_hash)

/-- One step of scanning the header table for the first row of
`ORDER BY block_height DESC, block_hash ASC`. -/
def tipStep (acc : Option BurnchainBlockHeader) (h : BurnchainBlockHeader) :
    Option BurnchainBlockHeader :=
  match acc with
  | none => some h
  | some b => if tip_better h b then some h else some b

/-- `inner_get_canonical_chain_tip` (db.rs lines 1019-1025):
`SELECT * FROM burnchain_db_block_headers ORDER BY block_height DESC,
block_hash ASC LIMIT 1`, with `.expect(..)` on an empty table modelled as
`none`. -/
def inner_get_canonical_chain_tip (st : BurnchainDBState) :
    Option BurnchainBlockHeader :=
  st.headers.foldl tipStep none

/-- `store_burnchain_db_entry` (db.rs lines 251-269): INSERT of a header row;
the UNIQUE constraint on `block_hash` makes the insert fail (an `Err`,
modelled as `none`) when the hash is already present. -/
def store_burnchain_db_entry (st : BurnchainDBState)
    (h : BurnchainBlockHeader) : Option BurnchainDBState :=
  if st.headers.any (fun x => x.block_hash == h.block_hash) then
    none
  else
    some { st with headers := st.headers ++ [h] }

/-- The empty database (before even the schema's seed rows). -/
def emptyState : BurnchainDBState :=
  ⟨[], [], [], [], [], []⟩

/-- The freshly-created database: the schema seeds affirmation map id 0
(the empty map, weight 0) and the sentinel anchor-block registry row
(db.rs lines 246-247). -/
def initialState : BurnchainDBState :=
  { emptyState with
    affirmation_maps := [⟨0, 0, []⟩],
    anchor_blocks := [NO_ANCHOR_BLOCK] }

-- Transitivity of the header ordering, and its negation.
theorem tip_better_trans {a b c : BurnchainBlockHeader}
    (h1 : tip_better a b = true) (h2 : tip_better b c = true) :
    tip_better a c = true := by
  simp only [tip_better, Bool.or_eq_true, Bool.and_eq_true, decide_eq_true_eq,
    beq_iff_eq] at h1 h2 ⊢
  omega

theorem tip_better_neg_trans {a b c : BurnchainBlockHeader}
    (h1 : tip_better a b = false) (h2 : tip_better b c = false) :
    tip_better a c = false := by
  simp only [tip_better, Bool.or_eq_false_iff, Bool.and_eq_false_iff,
    decide_eq_false_iff_not, beq_iff_eq, beq_eq_false_iff_ne, ne_eq] at h1 h2 ⊢
  omega

theorem tip_foldl_spec (l : List BurnchainBlockHeader)
    (b t : BurnchainBlockHeader)
    (hfold : l.foldl tipStep (some b) = some t) :
    (t = b ∨ t ∈ l) ∧ tip_better b t = false ∧
      ∀ h ∈ l, tip_better h t = false := by
  induction l generalizing b with
  | nil =>
    simp only [List.foldl_nil, Option.some.injEq] at hfold
    subst hfold
    refine ⟨Or.inl rfl, ?_, by simp⟩
    simp only [tip_better, Bool.or_eq_false_iff, Bool.and_eq_false_iff,
      decide_eq_false_iff_not, beq_iff_eq, beq_eq_false_iff_ne, ne_eq]
    omega
  | cons h l ih =>
    simp only [List.foldl_cons] at hfold
    by_cases hb : tip_better h b = true
    · have hstep : tipStep (some b) h = some h := by
        simp [tipStep, hb]
      rw [hstep] at hfold
      obtain ⟨hmem, hbt, hall⟩ := ih h hfold
      refine ⟨?_, ?_, ?_⟩
      · rcases hmem with rfl | hmem
        · exact Or.inr (List.mem_cons_self _ _)
        · exact Or.inr (List.mem_cons_of_mem _ hmem)
      · by_cases hbtt : tip_better b t = true
        · exfalso
          -- tip_better h b and tip_better b t would give tip_better h t
          have := tip_better_trans hb hbtt
          rw [hbt] at this
          exact Bool.false_ne_true this
        · exact Bool.eq_false_iff.mpr (fun hc => hbtt hc)
      · intro x hx
        rcases List.mem_cons.mp hx with rfl | hx
        · exact hbt
        · exact hall x hx
    · have hb' : tip_better h b = false := Bool.eq_false_iff.mpr hb
      have hstep : tipStep (some b) h = some b := by
        simp [tipStep, hb']
      rw [hstep] at hfold
      obtain ⟨hmem, hbt, hall⟩ := ih b hfold
      refine ⟨?_, hbt, ?_⟩
      · rcases hmem with rfl | hmem
        · exact Or.inl rfl
        · exact Or.inr (List.mem_cons_of_mem _ hmem)
      · intro x hx
        rcases List.mem_cons.mp hx with rfl | hx
        · exact tip_better_neg_trans hb' hbt
        · exact hall x hx

theorem tip_foldl_isSome (l : List BurnchainBlockHeader)
    (b : BurnchainBlockHeader) : (l.foldl tipStep (some b)).isSome := by
  induction l generalizing b with
  | nil => simp
  | cons h l ih =>
    simp only [List.foldl_cons, tipStep]
    by_cases hb : tip_better h b = true
    · simp only [hb, if_true]
      exact ih h
    · simp only [hb, if_false]
      exact ih b

/-- Nodup hashes let us turn "not strictly better" into strict dominance. -/
theorem tip_dominance {st : BurnchainDBState} {t h : BurnchainBlockHeader}
    (hnd : (st.headers.map (fun x => x.block_hash)).Nodup)
    (ht : t ∈ st.headers) (hh : h ∈ st.headers) (hne : h ≠ t)
    (hnb : tip_better h t = false) :
    h.block_height < t.block_height ∨
      (h.block_height = t.block_height ∧ t.block_hash < h.block_hash) := by
  have hhash : h.block_hash ≠ t.block_hash := by
    intro hEq
    exact hne (List.inj_on_of_nodup_map hnd hh ht hEq)
  simp only [tip_better, Bool.or_eq_false_iff, Bool.and_eq_false_iff,
    decide_eq_false_iff_not, beq_iff_eq, beq_eq_false_iff_ne, ne_eq] at hnb
  omega

/-- C3, amended.  `inner_get_canonical_chain_tip` (the body of
`get_canonical_chain_tip`) returns, among the headers of greatest height,
the one with the SMALLEST block_hash (the query orders `block_hash ASC`),
not the greatest: on a header table with unique hashes it returns a stored
header that strictly dominates every other header under
(height descending, block_hash ascending). -/
theorem C3_canonical_tip_least_hash (st : BurnchainDBState)
    (hne : st.headers ≠ [])
    (hnd : (st.headers.map (fun x => x.block_hash)).Nodup) :
    ∃ t, inner_get_canonical_chain_tip st = some t ∧ t ∈ st.headers ∧
      ∀ h ∈ st.headers, h ≠ t →
        h.block_height < t.block_height ∨
          (h.block_height = t.block_height ∧ t.block_hash < h.block_hash) := by
  unfold inner_get_canonical_chain_tip
  match hl : st.headers with
  | [] => exact absurd hl hne
  | b :: l =>
    have hsome := tip_foldl_isSome l b
    obtain ⟨t, ht⟩ := Option.isSome_iff_exists.mp hsome
    obtain ⟨hmem, hbt, hall⟩ := tip_foldl_spec l b t ht
    refine ⟨t, ?_, ?_, ?_⟩
    · simpa [tipStep] using ht
    · rcases hmem with rfl | hmem
      · exact List.mem_cons_self _ _
      · exact List.mem_cons_of_mem _ hmem
    · intro h hh hne'
      have htmem : t ∈ st.headers := by
        rw [hl]
        rcases hmem with rfl | hmem
        · exact List.mem_cons_self _ _
        · exact List.mem_cons_of_mem _ hmem
      have hhmem : h ∈ st.headers := by rw [hl]; exact hh
      have hnb : tip_better h t = false := by
        rcases List.mem_cons.mp hh with rfl | hx
        · exact hbt
        · exact hall h hx
      exact tip_dominance (hl ▸ hnd) htmem hhmem hne' hnb

/-- Witness for the amended C3 theorem at a concrete table. -/
theorem C3_canonical_tip_least_hash_witness :
    ∃ t, inner_get_canonical_chain_tip
        ⟨[⟨400, 7, 0, 0, 0⟩, ⟨500, 2, 0, 0, 0⟩, ⟨500, 1, 0, 0, 0⟩],
          [], [], [], [], []⟩ = some t ∧
      t ∈ [⟨400, 7, 0, 0, 0⟩, ⟨500, 2, 0, 0, 0⟩,
            (⟨500, 1, 0, 0, 0⟩ : BurnchainBlockHeader)] ∧
      ∀ h ∈ [⟨400, 7, 0, 0, 0⟩, ⟨500, 2, 0, 0, 0⟩,
              (⟨500, 1, 0, 0, 0⟩ : BurnchainBlockHeader)], h ≠ t →
        h.block_height < t.block_height ∨
          (h.block_height = t.block_height ∧ t.block_hash < h.block_hash) :=
  C3_canonical_tip_least_hash
    ⟨[⟨400, 7, 0, 0, 0⟩, ⟨500, 2, 0, 0, 0⟩, ⟨500, 1, 0, 0, 0⟩],
      [], [], [], [], []⟩
    (by decide) (by decide)

/-- C3, counterexample.  With two headers at the same maximal height 500 and
hashes 1 < 2, the claim says the tip is the header with the GREATEST
block_hash (hash 2); the code returns the one with hash 1. -/
theorem C3_counterexample :
    inner_get_canonical_chain_tip
        ⟨[⟨500, 1, 0, 0, 0⟩, ⟨500, 2, 0, 0, 0⟩], [], [], [], [], []⟩ =
      some ⟨500, 1, 0, 0, 0⟩ ∧
    inner_get_canonical_chain_tip
        ⟨[⟨500, 1, 0, 0, 0⟩, ⟨500, 2, 0, 0, 0⟩], [], [], [], [], []⟩ ≠
      some ⟨500, 2, 0, 0, 0⟩ := by
  constructor
  · rfl
  · decide

/-- C4.  Ingesting two blocks at the same maximal height 500 with hashes
0x01…01 and 0x02…02 (in either order, atop the same genesis header),
`get_canonical_chain_tip` returns the header with hash 0x01…01: the tie at
maximal height is broken by ascending block_hash. -/
theorem C4_fork_tie_break :
    (∀ st1,
      store_burnchain_db_entry
          ⟨[⟨1, 0, 0, 0, 0⟩], [], [], [], [], []⟩
          ⟨500, 0x0101010101010101010101010101010101010101010101010101010101010101, 0, 0, 0⟩ = some st1 →
      ∀ st2, store_burnchain_db_entry st1
          ⟨500, 0x0202020202020202020202020202020202020202020202020202020202020202, 0, 0, 0⟩ = some st2 →
      ∃ t, inner_get_canonical_chain_tip st2 = some t ∧
        t.block_hash = 0x0101010101010101010101010101010101010101010101010101010101010101) ∧
    (∀ st1,
      store_burnchain_db_entry
          ⟨[⟨1, 0, 0, 0, 0⟩], [], [], [], [], []⟩
          ⟨500, 0x0202020202020202020202020202020202020202020202020202020202020202, 0, 0, 0⟩ = some st1 →
      ∀ st2, store_burnchain_db_entry st1
          ⟨500, 0x0101010101010101010101010101010101010101010101010101010101010101, 0, 0, 0⟩ = some st2 →
      ∃ t, inner_get_canonical_chain_tip st2 = some t ∧
        t.block_hash = 0x0101010101010101010101010101010101010101010101010101010101010101) := by
  constructor
  · intro st1 h1 st2 h2
    have e1 : st1 = ⟨[⟨1, 0, 0, 0, 0⟩,
        ⟨500, 0x0101010101010101010101010101010101010101010101010101010101010101, 0, 0, 0⟩],
        [], [], [], [], []⟩ := by
      have : store_burnchain_db_entry
          ⟨[⟨1, 0, 0, 0, 0⟩], [], [], [], [], []⟩
          ⟨500, 0x0101010101010101010101010101010101010101010101010101010101010101, 0, 0, 0⟩ =
          some ⟨[⟨1, 0, 0, 0, 0⟩,
            ⟨500, 0x0101010101010101010101010101010101010101010101010101010101010101, 0, 0, 0⟩],
            [], [], [], [], []⟩ := by decide
      rw [this] at h1
      exact (Option.some.injEq _ _ ▸ h1).symm
    subst e1
    have e2 : st2 = ⟨[⟨1, 0, 0, 0, 0⟩,
        ⟨500, 0x0101010101010101010101010101010101010101010101010101010101010101, 0, 0, 0⟩,
        ⟨500, 0x0202020202020202020202020202020202020202020202020202020202020202, 0, 0, 0⟩],
        [], [], [], [], []⟩ := by
      have : store_burnchain_db_entry
          ⟨[⟨1, 0, 0, 0, 0⟩,
            ⟨500, 0x0101010101010101010101010101010101010101010101010101010101010101, 0, 0, 0⟩],
            [], [], [], [], []⟩
          ⟨500, 0x0202020202020202020202020202020202020202020202020202020202020202, 0, 0, 0⟩ =
          some ⟨[⟨1, 0, 0, 0, 0⟩,
            ⟨500, 0x0101010101010101010101010101010101010101010101010101010101010101, 0, 0, 0⟩,
            ⟨500, 0x0202020202020202020202020202020202020202020202020202020202020202, 0, 0, 0⟩],
            [], [], [], [], []⟩ := by decide
      rw [this] at h2
      exact (Option.some.injEq _ _ ▸ h2).symm
    subst e2
    exact ⟨⟨500, 0x0101010101010101010101010101010101010101010101010101010101010101, 0, 0, 0⟩,
      by decide, by decide⟩
  · intro st1 h1 st2 h2
    have e1 : st1 = ⟨[⟨1, 0, 0, 0, 0⟩,
        ⟨500, 0x0202020202020202020202020202020202020202020202020202020202020202, 0, 0, 0⟩],
        [], [], [], [], []⟩ := by
      have : store_burnchain_db_entry
          ⟨[⟨1, 0, 0, 0, 0⟩], [], [], [], [], []⟩
          ⟨500, 0x0202020202020202020202020202020202020202020202020202020202020202, 0, 0, 0⟩ =
          some ⟨[⟨1, 0, 0, 0, 0⟩,
            ⟨500, 0x0202020202020202020202020202020202020202020202020202020202020202, 0, 0, 0⟩],
            [], [], [], [], []⟩ := by decide
      rw [this] at h1
      exact (Option.some.injEq _ _ ▸ h1).symm
    subst e1
    have e2 : st2 = ⟨[⟨1, 0, 0, 0, 0⟩,
        ⟨500, 0x0202020202020202020202020202020202020202020202020202020202020202, 0, 0, 0⟩,
        ⟨500, 0x0101010101010101010101010101010101010101010101010101010101010101, 0, 0, 0⟩],
        [], [], [], [], []⟩ := by
      have : store_burnchain_db_entry
          ⟨[⟨1, 0, 0, 0, 0⟩,
            ⟨500, 0x0202020202020202020202020202020202020202020202020202020202020202, 0, 0, 0⟩],
            [], [], [], [], []⟩
          ⟨500, 0x0101010101010101010101010101010101010101010101010101010101010101, 0, 0, 0⟩ =
          some ⟨[⟨1, 0, 0, 0, 0⟩,
            ⟨500, 0x0202020202020202020202020202020202020202020202020202020202020202, 0, 0, 0⟩,
            ⟨500, 0x0101010101010101010101010101010101010101010101010101010101010101, 0, 0, 0⟩],
            [], [], [], [], []⟩ := by decide
      rw [this] at h2
      exact (Option.some.injEq _ _ ▸ h2).symm
    subst e2
    exact ⟨⟨500, 0x0101010101010101010101010101010101010101010101010101010101010101, 0, 0, 0⟩,
      by decide, by decide⟩

/-- Witness for C4 at its concrete ingest sequence. -/
theorem C4_fork_tie_break_witness :
    ∃ t, inner_get_canonical_chain_tip
        ⟨[⟨1, 0, 0, 0, 0⟩,
          ⟨500, 0x0101010101010101010101010101010101010101010101010101010101010101, 0, 0, 0⟩,
          ⟨500, 0x0202020202020202020202020202020202020202020202020202020202020202, 0, 0, 0⟩],
          [], [], [], [], []⟩ = some t ∧
      t.block_hash = 0x0101010101010101010101010101010101010101010101010101010101010101 :=
  C4_fork_tie_break.1
    ⟨[⟨1, 0, 0, 0, 0⟩,
      ⟨500, 0x0101010101010101010101010101010101010101010101010101010101010101, 0, 0, 0⟩],
      [], [], [], [], []⟩ (by decide)
    ⟨[⟨1, 0, 0, 0, 0⟩,
      ⟨500, 0x0101010101010101010101010101010101010101010101010101010101010101, 0, 0, 0⟩,
      ⟨500, 0x0202020202020202020202020202020202020202020202020202020202020202, 0, 0, 0⟩],
      [], [], [], [], []⟩ (by decide)

/-- `set_anchor_block` (db.rs lines 311-342): `INSERT OR REPLACE` of the
cycle into the `anchor_blocks` registry (a single-column primary key, so a
set), then `UPDATE block_commit_metadata SET anchor_block = cycle` for the
one row keyed by the commit's (burn_header_hash, txid).  No other metadata
row is touched. -/
def set_anchor_block (st : BurnchainDBState) (bc : LeaderBlockCommitOp)
    (target_reward_cycle : Nat) : BurnchainDBState :=
  { st with
    anchor_blocks :=
      if target_reward_cycle ∈ st.anchor_blocks then st.anchor_blocks
      else st.anchor_blocks ++ [target_reward_cycle],
    block_commit_metadata := st.block_commit_metadata.map (fun md =>
      if md.burn_block_hash == bc.burn_header_hash && md.txid == bc.txid then
        { md with anchor_block :=
            if target_reward_cycle == NO_ANCHOR_BLOCK then none
            else some target_reward_cycle }
      else md) }

/-- `clear_anchor_block` (db.rs lines 344-351): reset `anchor_block` to the
sentinel on every metadata row currently marked with this cycle. -/
def clear_anchor_block (st : BurnchainDBState) (reward_cycle : Nat) :
    BurnchainDBState :=
  { st with
    block_commit_metadata := st.block_commit_metadata.map (fun md =>
      if md.anchorBlockVal == reward_cycle then
        { md with anchor_block := none }
      else md) }

/-- `has_anchor_block` (db.rs lines 1185-1189):
`SELECT 1 FROM block_commit_metadata WHERE anchor_block = ?1`. -/
def has_anchor_block (st : BurnchainDBState) (reward_cycle : Nat) : Bool :=
  st.block_commit_metadata.any (fun md => md.anchorBlockVal == reward_cycle)

/-- The number of metadata rows marked as the anchor block of `cycle`. -/
def countAnchorMarks (st : BurnchainDBState) (cycle : Nat) : Nat :=
  st.block_commit_metadata.countP (fun md => md.anchorBlockVal == cycle)

/-- The first override row for a cycle, as raw table lookup
(`SELECT affirmation_map FROM overrides WHERE reward_cycle = ?1`). -/
def findOverride (st : BurnchainDBState) (reward_cycle : Nat) :
    Option AffirmationMap :=
  (st.overrides.find? (fun r => r.reward_cycle == reward_cycle)).map
    (fun r => r.affirmation_map)

/-- `get_override_affirmation_map` (db.rs lines 1480-1494): look the cycle up
in `overrides`; if a map is found, `assert_eq!(am.len() + 1, reward_cycle)`
(a failing assert is `none`). -/
def get_override_affirmation_map (st : BurnchainDBState)
    (reward_cycle : Nat) : Option (Option AffirmationMap) :=
  match findOverride st reward_cycle with
  | none => some none
  | some am =>
    if am.length + 1 = reward_cycle then some (some am) else none

/-- `set_override_affirmation_map` (db.rs lines 893-905):
`assert_eq!(am.len() + 1, reward_cycle)` (failure is `none`), then a plain
`INSERT INTO overrides` whose primary-key conflict on a duplicate cycle is
an `Err` (also `none`). -/
def set_override_affirmation_map (st : BurnchainDBState) (reward_cycle : Nat)
    (affirmation_map : AffirmationMap) : Option BurnchainDBState :=
  if affirmation_map.length + 1 = reward_cycle then
    if st.overrides.any (fun r => r.reward_cycle == reward_cycle) then none
    else some { st with
      overrides := st.overrides ++ [⟨reward_cycle, affirmation_map⟩] }
  else none

/-- `clear_override_affirmation_map` (db.rs lines 907-914):
`DELETE FROM overrides WHERE reward_cycle = ?1`. -/
def clear_override_affirmation_map (st : BurnchainDBState)
    (reward_cycle : Nat) : BurnchainDBState :=
  { st with overrides :=
      st.overrides.filter (fun r => ¬ r.reward_cycle == reward_cycle) }

/-- Every override row's map length is one less than its cycle. -/
def OverridesInv (st : BurnchainDBState) : Prop :=
  ∀ r ∈ st.overrides, r.affirmation_map.length + 1 = r.reward_cycle

/-- Store states reachable, as far as the `overrides` table is concerned:
it starts empty, and only `set_override_affirmation_map` and
`clear_override_affirmation_map` ever write it (every other store operation
leaves `overrides` unchanged). -/
inductive OverridesReachable : BurnchainDBState → Prop where
  | base (st : BurnchainDBState) : st.overrides = [] → OverridesReachable st
  | set (st st' : BurnchainDBState) (rc : Nat) (am : AffirmationMap) :
      OverridesReachable st →
      set_override_affirmation_map st rc am = some st' →
      OverridesReachable st'
  | clear (st : BurnchainDBState) (rc : Nat) :
      OverridesReachable st →
      OverridesReachable (clear_override_affirmation_map st rc)
  | other (st st' : BurnchainDBState) :
      OverridesReachable st → st'.overrides = st.overrides →
      OverridesReachable st'

/-- C5.  `set_override_affirmation_map c m` completes normally only when
`len(m) + 1 = c` (and aborts whenever that fails);
`get_override_affirmation_map` only ever returns maps satisfying the
relation; and in every reachable store state every registered override `o`
at cycle `c` satisfies `len(o) + 1 = c`. -/
theorem C5_override_length_invariant :
    (∀ (st : BurnchainDBState) (rc : Nat) (am : AffirmationMap)
        (st' : BurnchainDBState),
      set_override_affirmation_map st rc am = some st' → am.length + 1 = rc) ∧
    (∀ (st : BurnchainDBState) (rc : Nat) (am : AffirmationMap),
      am.length + 1 ≠ rc → set_override_affirmation_map st rc am = none) ∧
    (∀ (st : BurnchainDBState) (rc : Nat) (am : AffirmationMap),
      get_override_affirmation_map st rc = some (some am) →
        am.length + 1 = rc) ∧
    (∀ st : BurnchainDBState, OverridesReachable st → OverridesInv st) := by
  refine ⟨?_, ?_, ?_, ?_⟩
  · intro st rc am st' hset
    unfold set_override_affirmation_map at hset
    by_cases h : am.length + 1 = rc
    · exact h
    · simp [h] at hset
  · intro st rc am h
    unfold set_override_affirmation_map
    simp [h]
  · intro st rc am hget
    unfold get_override_affirmation_map at hget
    cases hfind : findOverride st rc with
    | none => simp [hfind] at hget
    | some m =>
      rw [hfind] at hget
      by_cases h : m.length + 1 = rc
      · simp only [h, if_true, Option.some.injEq] at hget
        rw [← hget]
        exact h
      · simp [h] at hget
  · intro st hreach
    induction hreach with
    | base st hempty =>
      intro r hr
      rw [hempty] at hr
      exact absurd hr (List.not_mem_nil r)
    | set st st' rc am _ hset ih =>
      unfold set_override_affirmation_map at hset
      by_cases h : am.length + 1 = rc
      · simp only [h, if_true] at hset
        by_cases hdup : st.overrides.any (fun r => r.reward_cycle == rc) = true
        · simp [hdup] at hset
        · simp only [Bool.not_eq_true] at hdup
          simp only [hdup, Bool.false_eq_true, if_false,
            Option.some.injEq] at hset
          intro r hr
          rw [← hset] at hr
          simp only [List.mem_append, List.mem_singleton] at hr
          rcases hr with hr | rfl
          · exact ih r hr
          · exact h
      · simp [h] at hset
    | clear st rc _ ih =>
      intro r hr
      unfold clear_override_affirmation_map at hr
      simp only [List.mem_filter] at hr
      exact ih r hr.1
    | other st st' _ hsame ih =>
      intro r hr
      rw [hsame] at hr
      exact ih r hr

/-- Witness for C5: the invariant at a concrete state reached by one
successful `set_override_affirmation_map`. -/
theorem C5_override_length_invariant_witness :
    OverridesInv ⟨[], [], [], [], [],
      [⟨3, [AffirmationMapEntry.PoxAnchorBlockPresent,
            AffirmationMapEntry.PoxAnchorBlockPresent]⟩]⟩ :=
  C5_override_length_invariant.2.2.2 _
    (OverridesReachable.set emptyState _ 3
      [AffirmationMapEntry.PoxAnchorBlockPresent,
        AffirmationMapEntry.PoxAnchorBlockPresent]
      (OverridesReachable.base emptyState rfl) (by decide))

/-- C1, counterexample.  Two distinct block-commits with stored metadata
rows; after `set_anchor_block(C1, 7)` then `set_anchor_block(C2, 7)` BOTH
rows carry `anchor_block = 7`: the claimed "at most one metadata row is
still marked" is false, because `set_anchor_block` never clears the
previously marked row. -/
theorem C1_counterexample :
    countAnchorMarks
        (set_anchor_block
          (set_anchor_block
            ⟨[], [], [⟨0, 0, []⟩], [NO_ANCHOR_BLOCK],
              [⟨10, 100, 50, 0, 0, none, none⟩,
                ⟨20, 200, 60, 0, 0, none, none⟩], []⟩
            ⟨100, 10, 50, 0, 0, 0⟩ 7)
          ⟨200, 20, 60, 0, 0, 0⟩ 7) 7 = 2 ∧
    ¬ countAnchorMarks
        (set_anchor_block
          (set_anchor_block
            ⟨[], [], [⟨0, 0, []⟩], [NO_ANCHOR_BLOCK],
              [⟨10, 100, 50, 0, 0, none, none⟩,
                ⟨20, 200, 60, 0, 0, none, none⟩], []⟩
            ⟨100, 10, 50, 0, 0, 0⟩ 7)
          ⟨200, 20, 60, 0, 0, 0⟩ 7) 7 ≤ 1 := by
  constructor
  · rfl
  · decide

/-- C1, amended.  `set_anchor_block` deduplicates only the `anchor_blocks`
registry (at most one registry row per cycle); it updates solely the
metadata row keyed by its own commit and leaves every other metadata row
untouched.  Hence after `set_anchor_block(C1, c)` followed by
`set_anchor_block(C2, c)` for commits with distinct (burn block hash, txid)
keys whose rows are both stored, BOTH rows end up marked with
`anchor_block = c`: metadata-row uniqueness per cycle is not preserved by
`set_anchor_block` alone (the caller must `clear_anchor_block` first). -/
theorem C1_set_anchor_block_both_marked (st : BurnchainDBState)
    (c1 c2 : LeaderBlockCommitOp) (cycle : Nat)
    (hkey : c1.burn_header_hash ≠ c2.burn_header_hash ∨ c1.txid ≠ c2.txid)
    (hcyc : cycle ≠ NO_ANCHOR_BLOCK)
    (md1 md2 : BlockCommitMetadata)
    (hm1 : md1 ∈ st.block_commit_metadata)
    (hk1 : md1.burn_block_hash = c1.burn_header_hash ∧ md1.txid = c1.txid)
    (hm2 : md2 ∈ st.block_commit_metadata)
    (hk2 : md2.burn_block_hash = c2.burn_header_hash ∧ md2.txid = c2.txid) :
    (∃ md ∈ (set_anchor_block (set_anchor_block st c1 cycle) c2
        cycle).block_commit_metadata,
      md.burn_block_hash = c1.burn_header_hash ∧ md.txid = c1.txid ∧
        md.anchor_block = some cycle) ∧
    (∃ md ∈ (set_anchor_block (set_anchor_block st c1 cycle) c2
        cycle).block_commit_metadata,
      md.burn_block_hash = c2.burn_header_hash ∧ md.txid = c2.txid ∧
        md.anchor_block = some cycle) ∧
    (st.anchor_blocks.Nodup →
      (set_anchor_block (set_anchor_block st c1 cycle) c2
        cycle).anchor_blocks.Nodup) := by
  have hset : ∀ (s : BurnchainDBState) (c : LeaderBlockCommitOp),
      (set_anchor_block s c cycle).block_commit_metadata =
        s.block_commit_metadata.map (fun md =>
          if md.burn_block_hash == c.burn_header_hash && md.txid == c.txid then
            { md with anchor_block := some cycle }
          else md) := by
    intro s c
    simp only [set_anchor_block]
    congr 1
    funext md
    have h0 : (cycle == NO_ANCHOR_BLOCK) = false := beq_eq_false_iff_ne.mpr hcyc
    simp [h0]
  refine ⟨?_, ?_, ?_⟩
  · -- md1's row: marked by the first call, untouched by the second
    refine ⟨{ md1 with anchor_block := some cycle }, ?_, hk1.1, hk1.2, rfl⟩
    rw [hset, hset]
    have step1 : ({ md1 with anchor_block := some cycle } :
        BlockCommitMetadata) ∈ st.block_commit_metadata.map (fun md =>
          if md.burn_block_hash == c1.burn_header_hash && md.txid == c1.txid then
            { md with anchor_block := some cycle }
          else md) := by
      have hbeq : (md1.burn_block_hash == c1.burn_header_hash &&
          md1.txid == c1.txid) = true := by
        simp [hk1.1, hk1.2]
      have := List.mem_map_of_mem (fun md =>
        if md.burn_block_hash == c1.burn_header_hash && md.txid == c1.txid then
          { md with anchor_block := some cycle }
        else md) hm1
      simpa [hbeq] using this
    have hne2 : (md1.burn_block_hash == c2.burn_header_hash &&
        md1.txid == c2.txid) = false := by
      rcases hkey with h | h
      · simp [hk1.1, h]
      · simp [hk1.2, h]
    have := List.mem_map_of_mem (fun md =>
      if md.burn_block_hash == c2.burn_header_hash && md.txid == c2.txid then
        { md with anchor_block := some cycle }
      else md) step1
    simpa [hne2] using this
  · -- md2's row: marked by the second call (whatever the first did to it)
    by_cases hc1 : (md2.burn_block_hash == c1.burn_header_hash &&
        md2.txid == c1.txid) = true
    · refine ⟨{ md2 with anchor_block := some cycle }, ?_, hk2.1, hk2.2, rfl⟩
      rw [hset, hset]
      have step1 := List.mem_map_of_mem (fun md =>
        if md.burn_block_hash == c1.burn_header_hash && md.txid == c1.txid then
          { md with anchor_block := some cycle }
        else md) hm2
      simp only [hc1, if_true] at step1
      have hbeq2 : (md2.burn_block_hash == c2.burn_header_hash &&
          md2.txid == c2.txid) = true := by
        simp [hk2.1, hk2.2]
      have := List.mem_map_of_mem (fun md =>
        if md.burn_block_hash == c2.burn_header_hash && md.txid == c2.txid then
          { md with anchor_block := some cycle }
        else md) step1
      simpa [hbeq2] using this
    · refine ⟨{ md2 with anchor_block := some cycle }, ?_, hk2.1, hk2.2, rfl⟩
      rw [hset, hset]
      have step1 := List.mem_map_of_mem (fun md =>
        if md.burn_block_hash == c1.burn_header_hash && md.txid == c1.txid then
          { md with anchor_block := some cycle }
        else md) hm2
      rw [Bool.not_eq_true] at hc1
      simp only [hc1, Bool.false_eq_true, if_false] at step1
      have hbeq2 : (md2.burn_block_hash == c2.burn_header_hash &&
          md2.txid == c2.txid) = true := by
        simp [hk2.1, hk2.2]
      have := List.mem_map_of_mem (fun md =>
        if md.burn_block_hash == c2.burn_header_hash && md.txid == c2.txid then
          { md with anchor_block := some cycle }
        else md) step1
      simpa [hbeq2] using this
  · -- registry: insert-if-absent preserves Nodup
    intro hnd
    have step : ∀ l : List Nat, l.Nodup →
        (if cycle ∈ l then l else l ++ [cycle]).Nodup := by
      intro l hl
      by_cases hc : cycle ∈ l
      · simpa [hc] using hl
      · simp only [hc, if_false]
        rw [List.nodup_append]
        refine ⟨hl, List.nodup_singleton _, ?_⟩
        intro a ha hb
        rw [List.mem_singleton] at hb
        subst hb
        exact hc ha
    simp only [set_anchor_block]
    exact step _ (step _ hnd)

/-- Witness for the amended C1 theorem at the counterexample's state. -/
theorem C1_set_anchor_block_both_marked_witness :
    (∃ md ∈ (set_anchor_block (set_anchor_block
        ⟨[], [], [⟨0, 0, []⟩], [NO_ANCHOR_BLOCK],
          [⟨10, 100, 50, 0, 0, none, none⟩,
            ⟨20, 200, 60, 0, 0, none, none⟩], []⟩
        ⟨100, 10, 50, 0, 0, 0⟩ 7) ⟨200, 20, 60, 0, 0, 0⟩
        7).block_commit_metadata,
      md.burn_block_hash = 10 ∧ md.txid = 100 ∧
        md.anchor_block = some 7) ∧
    (∃ md ∈ (set_anchor_block (set_anchor_block
        ⟨[], [], [⟨0, 0, []⟩], [NO_ANCHOR_BLOCK],
          [⟨10, 100, 50, 0, 0, none, none⟩,
            ⟨20, 200, 60, 0, 0, none, none⟩], []⟩
        ⟨100, 10, 50, 0, 0, 0⟩ 7) ⟨200, 20, 60, 0, 0, 0⟩
        7).block_commit_metadata,
      md.burn_block_hash = 20 ∧ md.txid = 200 ∧
        md.anchor_block = some 7) ∧
    (set_anchor_block (set_anchor_block
        ⟨[], [], [⟨0, 0, []⟩], [NO_ANCHOR_BLOCK],
          [⟨10, 100, 50, 0, 0, none, none⟩,
            ⟨20, 200, 60, 0, 0, none, none⟩], []⟩
        ⟨100, 10, 50, 0, 0, 0⟩ 7) ⟨200, 20, 60, 0, 0, 0⟩
        7).anchor_blocks.Nodup := by
  have h := C1_set_anchor_block_both_marked
    ⟨[], [], [⟨0, 0, []⟩], [NO_ANCHOR_BLOCK],
      [⟨10, 100, 50, 0, 0, none, none⟩,
        ⟨20, 200, 60, 0, 0, none, none⟩], []⟩
    ⟨100, 10, 50, 0, 0, 0⟩ ⟨200, 20, 60, 0, 0, 0⟩ 7
    (by decide) (by decide)
    ⟨10, 100, 50, 0, 0, none, none⟩ ⟨20, 200, 60, 0, 0, none, none⟩
    (by decide) (by decide) (by decide) (by decide)
  exact ⟨h.1, h.2.1, h.2.2 (by decide)⟩

/-- The error kinds of `util::db::Error` that db.rs can see from a failed
query (kinds only; the variants carry no payload we consume). -/
inductive DBError where
  | SqliteError : DBError
  | NotFoundError : DBError
  | ParseError : DBError
  | IOError : DBError
deriving DecidableEq, Repr

/-- The raw table lookup behind `inner_get_burnchain_op`:
`SELECT op FROM burnchain_db_block_ops WHERE txid = ?` (first matching
row). -/
def queryOpByTxid (st : BurnchainDBState) (txid : Nat) :
    Option BlockstackOperationType :=
  (st.block_ops.find? (fun r => r.txid == txid)).map (fun r => r.op)

/-- `inner_get_burnchain_op` (db.rs lines 1056-1069) as a function of the
outcome of its one query: `Ok(res)` is passed through, any `Err(e)` is
logged and coerced to `None`. -/
def inner_get_burnchain_op
    (qres : Except DBError (Option BlockstackOperationType)) :
    Option BlockstackOperationType :=
  match qres with
  | .ok res => res
  | .error _ => none

/-- `get_burnchain_op` (db.rs lines 1071-1073) on a healthy store: the query
succeeds and returns the first op row with this txid. -/
def get_burnchain_op (st : BurnchainDBState) (txid : Nat) :
    Option BlockstackOperationType :=
  inner_get_burnchain_op (Except.ok (queryOpByTxid st txid))

/-- C10.  `inner_get_burnchain_op` returns `None` not only when no operation
with the txid is stored but also when the underlying query fails with a
storage error: every `Err` outcome is coerced to `None`, every `Ok` outcome
is passed through unchanged, and the caller-facing `get_burnchain_op` is
the plain table lookup — no error value is ever propagated (the return type
is `Option`, and `Err` maps to `None`). -/
theorem C10_burnchain_op_error_coercion :
    (∀ e : DBError, inner_get_burnchain_op (Except.error e) = none) ∧
    (∀ res : Option BlockstackOperationType,
      inner_get_burnchain_op (Except.ok res) = res) ∧
    (∀ (st : BurnchainDBState) (txid : Nat),
      get_burnchain_op st txid = queryOpByTxid st txid) := by
  refine ⟨?_, ?_, ?_⟩
  · intro e
    rfl
  · intro res
    rfl
  · intro st txid
    rfl

/-- `get_block_commit` (db.rs lines 1287-1298): the op with this txid if it
is a `LeaderBlockCommit`, else `None`. -/
def get_block_commit (st : BurnchainDBState) (txid : Nat) :
    Option LeaderBlockCommitOp :=
  match get_burnchain_op st txid with
  | some (.LeaderBlockCommit opdata) => some opdata
  | _ => none

/-- `get_affirmation_map` (db.rs lines 1115-1122):
`SELECT affirmation_map FROM affirmation_maps WHERE affirmation_id = ?1`. -/
def get_affirmation_map (st : BurnchainDBState) (affirmation_id : Nat) :
    Option AffirmationMap :=
  (st.affirmation_maps.find? (fun r => r.affirmation_id == affirmation_id)).map
    (fun r => r.affirmation_map)

/-- `get_affirmation_weight` (db.rs lines 1124-1131). -/
def get_affirmation_weight (st : BurnchainDBState) (affirmation_id : Nat) :
    Option Nat :=
  (st.affirmation_maps.find? (fun r => r.affirmation_id == affirmation_id)).map
    (fun r => r.weight)

/-- `get_affirmation_map_id` (db.rs lines 1133-1140): lookup by the encoded
map text; the encoding is injective, so this is lookup by the entry list. -/
def get_affirmation_map_id (st : BurnchainDBState) (am : AffirmationMap) :
    Option Nat :=
  (st.affirmation_maps.find? (fun r => r.affirmation_map == am)).map
    (fun r => r.affirmation_id)

/-- `get_affirmation_map_id_at` (db.rs lines 1142-1150): the affirmation_id
of the metadata row keyed by (burn block hash, txid).
`get_block_commit_affirmation_id` (lines 1164-1173) is this applied to a
commit's own key. -/
def get_affirmation_map_id_at (st : BurnchainDBState)
    (burn_header_hash txid : Nat) : Option Nat :=
  (st.block_commit_metadata.find? (fun md =>
    md.burn_block_hash == burn_header_hash && md.txid == txid)).map
    (fun md => md.affirmation_id)

/-- `get_commit_metadata` (db.rs lines 1351-1368): the metadata row keyed by
(burn block hash, txid); the primary key makes the row unique, so
`query_row_panic`'s more-than-one-row panic cannot fire. -/
def get_commit_metadata (st : BurnchainDBState)
    (burn_block_hash txid : Nat) : Option BlockCommitMetadata :=
  st.block_commit_metadata.find? (fun md =>
    md.burn_block_hash == burn_block_hash && md.txid == txid)

/-- `get_anchor_block_commit` (db.rs lines 1191-1212): `None` for the
sentinel cycle; otherwise the first metadata row with `anchor_block = rc`,
paired with its block-commit; `.expect` on a missing commit is the outer
`none`. -/
def get_anchor_block_commit (st : BurnchainDBState) (reward_cycle : Nat) :
    Option (Option (LeaderBlockCommitOp × BlockCommitMetadata)) :=
  if reward_cycle = NO_ANCHOR_BLOCK then some none
  else
    match st.block_commit_metadata.find? (fun md =>
        md.anchorBlockVal == reward_cycle) with
    | none => some none
    | some md =>
      match get_block_commit st md.txid with
      | some commit => some (some (commit, md))
      | none => none

/-- `get_commit_in_block_at` (db.rs lines 1300-1329): metadata row keyed by
(block_height, vtxindex, burn_block_hash) resolved to its block-commit;
query errors are coerced to `None`. -/
def get_commit_in_block_at (st : BurnchainDBState)
    (header_hash block_ptr vtxindex : Nat) : Option LeaderBlockCommitOp :=
  match st.block_commit_metadata.find? (fun md =>
      md.block_height == block_ptr && md.vtxindex == vtxindex &&
        md.burn_block_hash == header_hash) with
  | none => none
  | some md => get_block_commit st md.txid

/-- `get_commit_at` (db.rs lines 1331-1349): resolve the canonical header at
`block_ptr` through the header-reader, then look the commit up in that
block. -/
def get_commit_at (st : BurnchainDBState) (indexer : BurnchainHeaderReader)
    (block_ptr vtxindex : Nat) : Option LeaderBlockCommitOp :=
  match (indexer.read_burnchain_headers block_ptr (block_ptr + 1)).head? with
  | none => none
  | some hdr => get_commit_in_block_at st hdr.block_hash block_ptr vtxindex

/-- One candidate row of the heaviest-anchor-block query (db.rs lines
1401-1406): a metadata row with `anchor_block != SENTINEL`, inner-joined
with its `affirmation_maps` row to obtain the weight. -/
def heaviest_candidates (st : BurnchainDBState) :
    List (Nat × BlockCommitMetadata) :=
  st.block_commit_metadata.filterMap (fun md =>
    if md.anchorBlockVal == NO_ANCHOR_BLOCK then none
    else
      match get_affirmation_weight st md.affirmation_id with
      | some w => some (w, md)
      | none => none)

/-- `ORDER BY weight DESC, anchor_block DESC`: `a` sorts strictly before
`b`. -/
def heavier (a b : Nat × BlockCommitMetadata) : Bool :=
  b.1 < a.1 || (a.1 == b.1 && b.2.anchorBlockVal < a.2.anchorBlockVal)

/-- One step of scanning the joined candidates for the first row of
`ORDER BY weight DESC, anchor_block DESC`. -/
def heavierStep (acc : Option (Nat × BlockCommitMetadata))
    (c : Nat × BlockCommitMetadata) : Option (Nat × BlockCommitMetadata) :=
  match acc with
  | none => some c
  | some b => if heavier c b then some c else some b

/-- The top row of the heaviest-anchor-block query. -/
def select_heaviest (st : BurnchainDBState) :
    Option (Nat × BlockCommitMetadata) :=
  (heaviest_candidates st).foldl heavierStep none

/-- `get_heaviest_anchor_block` (db.rs lines 1398-1419): the top joined row
resolved to its block-commit; the `.expect` on a missing commit is the outer
`none`. -/
def get_heaviest_anchor_block (st : BurnchainDBState) :
    Option (Option (LeaderBlockCommitOp × BlockCommitMetadata)) :=
  match select_heaviest st with
  | none => some none
  | some (_, md) =>
    match get_block_commit st md.txid with
    | some commit => some (some (commit, md))
    | none => none

/-- `get_heaviest_anchor_block_affirmation_map` (db.rs lines 1423-1475):
if a heaviest anchor block exists, first consult the override table at the
cycle after the cycle of the winning metadata row's height; an override is
returned verbatim, otherwise the winning row's affirmation map (`.expect`
on a missing map is `none`).  With no anchor blocks at all, the empty
map. -/
def get_heaviest_anchor_block_affirmation_map (st : BurnchainDBState)
    (burnchain : Burnchain) : Option AffirmationMap :=
  match get_heaviest_anchor_block st with
  | none => none
  | some none => some []
  | some (some (_, metadata)) =>
    let last_reward_cycle :=
      (burnchain.block_height_to_reward_cycle metadata.block_height).getD 0 + 1
    match get_override_affirmation_map st last_reward_cycle with
    | none => none
    | some (some am) => some am
    | some none => get_affirmation_map st metadata.affirmation_id

/-- One extension step of `get_canonical_affirmation_map` (db.rs lines
1537-1551): P or A through the unconfirmed oracle when an anchor-block
commit is recorded for the cycle, N when none is; `none` is the panic
inside `get_anchor_block_commit`. -/
def canonical_extension_step (st : BurnchainDBState)
    (oracle : LeaderBlockCommitOp → BlockCommitMetadata → Bool) (rc : Nat) :
    Option AffirmationMapEntry :=
  match get_anchor_block_commit st rc with
  | none => none
  | some none => some AffirmationMapEntry.Nothing
  | some (some (commit, metadata)) =>
    if oracle commit metadata then some AffirmationMapEntry.PoxAnchorBlockPresent
    else some AffirmationMapEntry.PoxAnchorBlockAbsent

/-- The extension loop of `get_canonical_affirmation_map` (db.rs lines
1537-1551), with the `?` early-return on a panicking step. -/
def canonical_extend (st : BurnchainDBState)
    (oracle : LeaderBlockCommitOp → BlockCommitMetadata → Bool) :
    List Nat → AffirmationMap → Option AffirmationMap
  | [], am => some am
  | rc :: rcs, am =>
    match canonical_extension_step st oracle rc with
    | none => none
    | some e => canonical_extend st oracle rcs (am ++ [e])

/-- `get_canonical_affirmation_map` (db.rs lines 1499-1554): take the
canonical tip; let `last_reward_cycle` be its cycle + 1; return an override
registered at `last_reward_cycle` verbatim if any; otherwise extend the
heaviest anchor-block affirmation map by one entry per cycle in
`[len + 1, last_reward_cycle)`. -/
def get_canonical_affirmation_map (st : BurnchainDBState)
    (burnchain : Burnchain)
    (oracle : LeaderBlockCommitOp → BlockCommitMetadata → Bool) :
    Option AffirmationMap :=
  match inner_get_canonical_chain_tip st with
  | none => none
  | some canonical_tip =>
    let last_reward_cycle :=
      (burnchain.block_height_to_reward_cycle
        canonical_tip.block_height).getD 0 + 1
    match get_override_affirmation_map st last_reward_cycle with
    | none => none
    | some (some am) => some am
    | some none =>
      match get_heaviest_anchor_block_affirmation_map st burnchain with
      | none => none
      | some heaviest_am =>
        let start_rc := heaviest_am.length + 1
        canonical_extend st oracle
          (List.range' start_rc (last_reward_cycle - start_rc)) heaviest_am

/-- C2, amended.  The override consulted by `get_canonical_affirmation_map`
is the one registered at reward cycle `tip_cycle + 1` (the code's
`last_reward_cycle`), not at the tip's own cycle; and to survive the read
assert the override's length must be exactly `tip_cycle` (so `"pppna"`, of
length 5, cannot serve at cycle 9 or 10).  Under those conditions the
override is returned verbatim, regardless of the underlying heaviest
map. -/
theorem C2_override_shadows_selector (st : BurnchainDBState)
    (burnchain : Burnchain)
    (oracle : LeaderBlockCommitOp → BlockCommitMetadata → Bool)
    (tip : BurnchainBlockHeader) (tc : Nat) (m : AffirmationMap)
    (htip : inner_get_canonical_chain_tip st = some tip)
    (hrc : burnchain.block_height_to_reward_cycle tip.block_height = some tc)
    (hfind : findOverride st (tc + 1) = some m)
    (hlen : m.length + 1 = tc + 1) :
    get_canonical_affirmation_map st burnchain oracle = some m := by
  unfold get_canonical_affirmation_map
  rw [htip]
  simp only [hrc, Option.getD_some]
  have hov : get_override_affirmation_map st (tc + 1) = some (some m) := by
    unfold get_override_affirmation_map
    rw [hfind]
    simp [hlen]
  rw [hov]

/-- Witness for the amended C2 theorem: an override of length 9 at cycle 10
with the canonical tip in cycle 9. -/
theorem C2_override_shadows_selector_witness :
    get_canonical_affirmation_map
      ⟨[⟨95, 1, 0, 0, 0⟩], [], [⟨0, 0, []⟩], [NO_ANCHOR_BLOCK], [],
        [⟨10, List.replicate 9 AffirmationMapEntry.PoxAnchorBlockPresent⟩]⟩
      ⟨fun h => some (h / 10), fun _ _ => none⟩ (fun _ _ => true) =
      some (List.replicate 9 AffirmationMapEntry.PoxAnchorBlockPresent) :=
  C2_override_shadows_selector
    ⟨[⟨95, 1, 0, 0, 0⟩], [], [⟨0, 0, []⟩], [NO_ANCHOR_BLOCK], [],
      [⟨10, List.replicate 9 AffirmationMapEntry.PoxAnchorBlockPresent⟩]⟩
    ⟨fun h => some (h / 10), fun _ _ => none⟩ (fun _ _ => true)
    ⟨95, 1, 0, 0, 0⟩ 9
    (List.replicate 9 AffirmationMapEntry.PoxAnchorBlockPresent)
    (by decide) (by decide) (by decide) (by decide)

/-- C2, counterexample.  Store the override `"pppna"` directly at reward
cycle 9 and put the canonical tip in cycle 9: the code consults the
override table at cycle 10, finds nothing, and returns the extended
heaviest map (nine N entries) — not `"pppna"`. -/
theorem C2_counterexample :
    get_canonical_affirmation_map
        ⟨[⟨95, 1, 0, 0, 0⟩], [], [⟨0, 0, []⟩], [NO_ANCHOR_BLOCK], [],
          [⟨9, [AffirmationMapEntry.PoxAnchorBlockPresent,
                AffirmationMapEntry.PoxAnchorBlockPresent,
                AffirmationMapEntry.PoxAnchorBlockPresent,
                AffirmationMapEntry.Nothing,
                AffirmationMapEntry.PoxAnchorBlockAbsent]⟩]⟩
        ⟨fun h => some (h / 10), fun _ _ => none⟩ (fun _ _ => true) =
      some (List.replicate 9 AffirmationMapEntry.Nothing) ∧
    ¬ get_canonical_affirmation_map
        ⟨[⟨95, 1, 0, 0, 0⟩], [], [⟨0, 0, []⟩], [NO_ANCHOR_BLOCK], [],
          [⟨9, [AffirmationMapEntry.PoxAnchorBlockPresent,
                AffirmationMapEntry.PoxAnchorBlockPresent,
                AffirmationMapEntry.PoxAnchorBlockPresent,
                AffirmationMapEntry.Nothing,
                AffirmationMapEntry.PoxAnchorBlockAbsent]⟩]⟩
        ⟨fun h => some (h / 10), fun _ _ => none⟩ (fun _ _ => true) =
      some [AffirmationMapEntry.PoxAnchorBlockPresent,
            AffirmationMapEntry.PoxAnchorBlockPresent,
            AffirmationMapEntry.PoxAnchorBlockPresent,
            AffirmationMapEntry.Nothing,
            AffirmationMapEntry.PoxAnchorBlockAbsent] := by
  constructor
  · rfl
  · decide

theorem canonical_extend_spec (st : BurnchainDBState)
    (oracle : LeaderBlockCommitOp → BlockCommitMetadata → Bool)
    (l : List Nat) :
    ∀ acc : AffirmationMap,
    (∀ rc ∈ l, canonical_extension_step st oracle rc ≠ none) →
    canonical_extend st oracle l acc =
      some (acc ++ l.map (fun rc =>
        (canonical_extension_step st oracle rc).getD
          AffirmationMapEntry.Nothing)) := by
  induction l with
  | nil =>
    intro acc _
    simp [canonical_extend]
  | cons rc l ih =>
    intro acc hall
    have hrc := hall rc (List.mem_cons_self _ _)
    obtain ⟨e, he⟩ := Option.ne_none_iff_exists'.mp hrc
    have hstep := ih (acc ++ [e]) (fun x hx => hall x (List.mem_cons_of_mem _ hx))
    simp only [canonical_extend, he, hstep, List.map_cons, Option.getD_some,
      List.append_assoc, List.singleton_append]

/-- C7.  With no override in play, `get_canonical_affirmation_map` starts
from the heaviest anchor-block affirmation map H and, for every reward
cycle rc from `len(H)+1` up to and including the canonical tip's cycle,
appends exactly one entry: P when an anchor-block commit is recorded for rc
and the unconfirmed oracle accepts it, A when one is recorded and the
oracle rejects it, and N when no anchor block is recorded for rc. -/
theorem C7_canonical_map_extension (st : BurnchainDBState)
    (burnchain : Burnchain)
    (oracle : LeaderBlockCommitOp → BlockCommitMetadata → Bool)
    (tip : BurnchainBlockHeader) (tc : Nat) (H : AffirmationMap)
    (htip : inner_get_canonical_chain_tip st = some tip)
    (hrc : burnchain.block_height_to_reward_cycle tip.block_height = some tc)
    (hov : findOverride st (tc + 1) = none)
    (hheavy : get_heaviest_anchor_block_affirmation_map st burnchain = some H)
    (hsteps : ∀ rc ∈ List.range' (H.length + 1) (tc - H.length),
      get_anchor_block_commit st rc ≠ none) :
    get_canonical_affirmation_map st burnchain oracle =
      some (H ++ (List.range' (H.length + 1) (tc - H.length)).map (fun rc =>
        match get_anchor_block_commit st rc with
        | some (some (commit, metadata)) =>
          if oracle commit metadata then
            AffirmationMapEntry.PoxAnchorBlockPresent
          else AffirmationMapEntry.PoxAnchorBlockAbsent
        | _ => AffirmationMapEntry.Nothing)) := by
  unfold get_canonical_affirmation_map
  rw [htip]
  simp only [hrc, Option.getD_some]
  have hov' : get_override_affirmation_map st (tc + 1) = some none := by
    unfold get_override_affirmation_map
    rw [hov]
  simp only [hov', hheavy]
  have hsteps' : ∀ rc ∈ List.range' (H.length + 1) (tc - H.length),
      canonical_extension_step st oracle rc ≠ none := by
    intro rc hmem
    have := hsteps rc hmem
    unfold canonical_extension_step
    cases habc : get_anchor_block_commit st rc with
    | none => exact absurd habc this
    | some o =>
      cases o with
      | none => simp
      | some p =>
        obtain ⟨commit, metadata⟩ := p
        by_cases h : oracle commit metadata = true
        · simp [h]
        · simp [h]
  have hcount : tc + 1 - (H.length + 1) = tc - H.length := by omega
  rw [hcount]
  rw [canonical_extend_spec st oracle _ H hsteps']
  congr 1
  congr 1
  apply List.map_congr_left
  intro rc hmem
  have hne := hsteps' rc hmem
  cases habc : get_anchor_block_commit st rc with
  | none =>
    exfalso
    apply hne
    unfold canonical_extension_step
    rw [habc]
  | some o =>
    cases o with
    | none => simp [canonical_extension_step, habc]
    | some p =>
      obtain ⟨commit, metadata⟩ := p
      by_cases h : oracle commit metadata = true
      · simp [canonical_extension_step, habc, h]
      · simp [canonical_extension_step, habc, h]

/-- Witness for C7: tip in cycle 2, empty heaviest map, no anchor blocks —
the canonical map is two N entries. -/
theorem C7_canonical_map_extension_witness :
    get_canonical_affirmation_map
        ⟨[⟨25, 1, 0, 0, 0⟩], [], [⟨0, 0, []⟩], [NO_ANCHOR_BLOCK], [], []⟩
        ⟨fun h => some (h / 10), fun _ _ => none⟩ (fun _ _ => true) =
      some (([] : AffirmationMap) ++
        (List.range' 1 2).map (fun rc =>
          match get_anchor_block_commit
              ⟨[⟨25, 1, 0, 0, 0⟩], [], [⟨0, 0, []⟩], [NO_ANCHOR_BLOCK], [], []⟩
              rc with
          | some (some (commit, metadata)) =>
            if (fun _ _ => true) commit metadata then
              AffirmationMapEntry.PoxAnchorBlockPresent
            else AffirmationMapEntry.PoxAnchorBlockAbsent
          | _ => AffirmationMapEntry.Nothing)) :=
  C7_canonical_map_extension
    ⟨[⟨25, 1, 0, 0, 0⟩], [], [⟨0, 0, []⟩], [NO_ANCHOR_BLOCK], [], []⟩
    ⟨fun h => some (h / 10), fun _ _ => none⟩ (fun _ _ => true)
    ⟨25, 1, 0, 0, 0⟩ 2 []
    (by decide) (by decide) (by decide) (by decide) (by decide)

-- Transitivity of the (weight DESC, anchor_block DESC) candidate ordering.
theorem heavier_trans {a b c : Nat × BlockCommitMetadata}
    (h1 : heavier a b = true) (h2 : heavier b c = true) :
    heavier a c = true := by
  simp only [heavier, Bool.or_eq_true, Bool.and_eq_true, decide_eq_true_eq,
    beq_iff_eq] at h1 h2 ⊢
  omega

theorem heavier_neg_trans {a b c : Nat × BlockCommitMetadata}
    (h1 : heavier a b = false) (h2 : heavier b c = false) :
    heavier a c = false := by
  simp only [heavier, Bool.or_eq_false_iff, Bool.and_eq_false_iff,
    decide_eq_false_iff_not, beq_iff_eq, beq_eq_false_iff_ne, ne_eq] at h1 h2 ⊢
  omega

theorem heavy_foldl_spec (l : List (Nat × BlockCommitMetadata))
    (b t : Nat × BlockCommitMetadata)
    (hfold : l.foldl heavierStep (some b) = some t) :
    (t = b ∨ t ∈ l) ∧ heavier b t = false ∧
      ∀ c ∈ l, heavier c t = false := by
  induction l generalizing b with
  | nil =>
    simp only [List.foldl_nil, Option.some.injEq] at hfold
    subst hfold
    refine ⟨Or.inl rfl, ?_, by simp⟩
    simp only [heavier, Bool.or_eq_false_iff, Bool.and_eq_false_iff,
      decide_eq_false_iff_not, beq_iff_eq, beq_eq_false_iff_ne, ne_eq]
    omega
  | cons h l ih =>
    simp only [List.foldl_cons] at hfold
    by_cases hb : heavier h b = true
    · have hstep : heavierStep (some b) h = some h := by
        simp [heavierStep, hb]
      rw [hstep] at hfold
      obtain ⟨hmem, hbt, hall⟩ := ih h hfold
      refine ⟨?_, ?_, ?_⟩
      · rcases hmem with rfl | hmem
        · exact Or.inr (List.mem_cons_self _ _)
        · exact Or.inr (List.mem_cons_of_mem _ hmem)
      · by_cases hbtt : heavier b t = true
        · exfalso
          have := heavier_trans hb hbtt
          rw [hbt] at this
          exact Bool.false_ne_true this
        · exact Bool.eq_false_iff.mpr (fun hc => hbtt hc)
      · intro x hx
        rcases List.mem_cons.mp hx with rfl | hx
        · exact hbt
        · exact hall x hx
    · have hb' : heavier h b = false := Bool.eq_false_iff.mpr hb
      have hstep : heavierStep (some b) h = some b := by
        simp [heavierStep, hb']
      rw [hstep] at hfold
      obtain ⟨hmem, hbt, hall⟩ := ih b hfold
      refine ⟨?_, hbt, ?_⟩
      · rcases hmem with rfl | hmem
        · exact Or.inl rfl
        · exact Or.inr (List.mem_cons_of_mem _ hmem)
      · intro x hx
        rcases List.mem_cons.mp hx with rfl | hx
        · exact heavier_neg_trans hb' hbt
        · exact hall x hx

theorem select_heaviest_spec (st : BurnchainDBState)
    (t : Nat × BlockCommitMetadata)
    (hsel : select_heaviest st = some t) :
    t ∈ heaviest_candidates st ∧
      ∀ c ∈ heaviest_candidates st, heavier c t = false := by
  unfold select_heaviest at hsel
  match hl : heaviest_candidates st with
  | [] =>
    rw [hl] at hsel
    simp at hsel
  | c :: l =>
    rw [hl] at hsel
    have hstep : heavierStep none c = some c := rfl
    rw [List.foldl_cons, hstep] at hsel
    obtain ⟨hmem, hct, hall⟩ := heavy_foldl_spec l c t hsel
    refine ⟨?_, ?_⟩
    · rcases hmem with rfl | hmem
      · exact List.mem_cons_self _ _
      · exact List.mem_cons_of_mem _ hmem
    · intro x hx
      rcases List.mem_cons.mp hx with rfl | hx
      · exact hct
      · exact hall x hx

theorem heaviest_candidates_marked (st : BurnchainDBState)
    (w : Nat) (md : BlockCommitMetadata)
    (hmem : (w, md) ∈ heaviest_candidates st) :
    md ∈ st.block_commit_metadata ∧ md.anchor_block ≠ none ∧
      get_affirmation_weight st md.affirmation_id = some w := by
  unfold heaviest_candidates at hmem
  obtain ⟨md0, hmd0, hf⟩ := List.mem_filterMap.mp hmem
  by_cases hab : (md0.anchorBlockVal == NO_ANCHOR_BLOCK) = true
  · simp [hab] at hf
  · rw [Bool.not_eq_true] at hab
    simp only [hab, Bool.false_eq_true, if_false] at hf
    cases hw : get_affirmation_weight st md0.affirmation_id with
    | none => rw [hw] at hf; simp at hf
    | some w0 =>
      rw [hw] at hf
      simp only [Option.some.injEq, Prod.mk.injEq] at hf
      obtain ⟨rfl, rfl⟩ := hf
      refine ⟨hmd0, ?_, hw⟩
      intro hnone
      have : md0.anchorBlockVal = NO_ANCHOR_BLOCK := by
        unfold BlockCommitMetadata.anchorBlockVal
        rw [hnone]
        rfl
      rw [this] at hab
      simp at hab

/-- C6, amended.  When no override is registered for the cycle after the
winning row's cycle, `get_heaviest_anchor_block_affirmation_map` returns
the affirmation map of the metadata row, among rows with
`anchor_block != SENTINEL` (joined to an existing affirmation-map row),
whose map weight is maximal, with ties broken by the largest anchor_block
cycle; with no marked commit at all it returns the empty map.  (The claim
omitted the override check inside this function: a registered override is
returned instead of the heaviest map.) -/
theorem C6_heaviest_anchor_block_map (st : BurnchainDBState)
    (burnchain : Burnchain) :
    (select_heaviest st = none →
      get_heaviest_anchor_block_affirmation_map st burnchain = some []) ∧
    (∀ (w : Nat) (md : BlockCommitMetadata) (commit : LeaderBlockCommitOp),
      select_heaviest st = some (w, md) →
      get_block_commit st md.txid = some commit →
      findOverride st
        ((burnchain.block_height_to_reward_cycle md.block_height).getD 0 + 1)
        = none →
      get_heaviest_anchor_block_affirmation_map st burnchain =
          get_affirmation_map st md.affirmation_id ∧
        md ∈ st.block_commit_metadata ∧
        md.anchor_block ≠ none ∧
        get_affirmation_weight st md.affirmation_id = some w ∧
        ∀ x ∈ heaviest_candidates st,
          x.1 ≤ w ∧ (x.1 = w → x.2.anchorBlockVal ≤ md.anchorBlockVal)) := by
  constructor
  · intro hsel
    unfold get_heaviest_anchor_block_affirmation_map get_heaviest_anchor_block
    rw [hsel]
  · intro w md commit hsel hcommit hov
    obtain ⟨hmem, hall⟩ := select_heaviest_spec st (w, md) hsel
    obtain ⟨hmd, hab, hw⟩ := heaviest_candidates_marked st w md hmem
    refine ⟨?_, hmd, hab, hw, ?_⟩
    · have hov' : get_override_affirmation_map st
          ((burnchain.block_height_to_reward_cycle md.block_height).getD 0 + 1)
          = some none := by
        unfold get_override_affirmation_map
        rw [hov]
      unfold get_heaviest_anchor_block_affirmation_map
        get_heaviest_anchor_block
      simp only [hsel, hcommit, hov']
    · intro x hx
      have := hall x hx
      simp only [heavier, Bool.or_eq_false_iff, Bool.and_eq_false_iff,
        decide_eq_false_iff_not, beq_iff_eq, beq_eq_false_iff_ne,
        ne_eq] at this
      omega

/-- Witness for the amended C6 theorem: two anchor commits with maps of
weight 3 at cycles 5 and 8 — the selector returns the cycle-8 map. -/
theorem C6_heaviest_anchor_block_map_witness :
    get_heaviest_anchor_block_affirmation_map
        ⟨[], [⟨5, 55, .LeaderBlockCommit ⟨55, 5, 50, 0, 0, 0⟩⟩,
              ⟨8, 88, .LeaderBlockCommit ⟨88, 8, 80, 0, 0, 0⟩⟩],
          [⟨0, 0, []⟩,
            ⟨1, 3, [AffirmationMapEntry.PoxAnchorBlockPresent,
                    AffirmationMapEntry.PoxAnchorBlockPresent,
                    AffirmationMapEntry.PoxAnchorBlockPresent]⟩,
            ⟨2, 3, [AffirmationMapEntry.PoxAnchorBlockAbsent,
                    AffirmationMapEntry.PoxAnchorBlockAbsent,
                    AffirmationMapEntry.PoxAnchorBlockAbsent,
                    AffirmationMapEntry.Nothing]⟩],
          [NO_ANCHOR_BLOCK, 5, 8],
          [⟨5, 55, 50, 0, 1, some 5, none⟩, ⟨8, 88, 80, 0, 2, some 8, none⟩],
          []⟩
        ⟨fun h => some (h / 10), fun _ _ => none⟩ =
      get_affirmation_map
        ⟨[], [⟨5, 55, .LeaderBlockCommit ⟨55, 5, 50, 0, 0, 0⟩⟩,
              ⟨8, 88, .LeaderBlockCommit ⟨88, 8, 80, 0, 0, 0⟩⟩],
          [⟨0, 0, []⟩,
            ⟨1, 3, [AffirmationMapEntry.PoxAnchorBlockPresent,
                    AffirmationMapEntry.PoxAnchorBlockPresent,
                    AffirmationMapEntry.PoxAnchorBlockPresent]⟩,
            ⟨2, 3, [AffirmationMapEntry.PoxAnchorBlockAbsent,
                    AffirmationMapEntry.PoxAnchorBlockAbsent,
                    AffirmationMapEntry.PoxAnchorBlockAbsent,
                    AffirmationMapEntry.Nothing]⟩],
          [NO_ANCHOR_BLOCK, 5, 8],
          [⟨5, 55, 50, 0, 1, some 5, none⟩, ⟨8, 88, 80, 0, 2, some 8, none⟩],
          []⟩ 2 ∧
    (⟨8, 88, 80, 0, 2, some 8, none⟩ : BlockCommitMetadata).anchor_block ≠
      none :=
  have h := (C6_heaviest_anchor_block_map
    ⟨[], [⟨5, 55, .LeaderBlockCommit ⟨55, 5, 50, 0, 0, 0⟩⟩,
          ⟨8, 88, .LeaderBlockCommit ⟨88, 8, 80, 0, 0, 0⟩⟩],
      [⟨0, 0, []⟩,
        ⟨1, 3, [AffirmationMapEntry.PoxAnchorBlockPresent,
                AffirmationMapEntry.PoxAnchorBlockPresent,
                AffirmationMapEntry.PoxAnchorBlockPresent]⟩,
        ⟨2, 3, [AffirmationMapEntry.PoxAnchorBlockAbsent,
                AffirmationMapEntry.PoxAnchorBlockAbsent,
                AffirmationMapEntry.PoxAnchorBlockAbsent,
                AffirmationMapEntry.Nothing]⟩],
      [NO_ANCHOR_BLOCK, 5, 8],
      [⟨5, 55, 50, 0, 1, some 5, none⟩, ⟨8, 88, 80, 0, 2, some 8, none⟩],
      []⟩
    ⟨fun h => some (h / 10), fun _ _ => none⟩).2 3
    ⟨8, 88, 80, 0, 2, some 8, none⟩ ⟨88, 8, 80, 0, 0, 0⟩
    (by decide) (by decide) (by decide)
  ⟨h.1, h.2.2.1⟩

/-- C6, counterexample.  One marked anchor commit (cycle 5, weight 1, map
"p") plus an override registered at cycle 6 = the winner's cycle + 1:
`get_heaviest_anchor_block_affirmation_map` returns the override "aaaaa",
not the winning row's map "p" — the claim omitted the override check. -/
theorem C6_counterexample :
    get_heaviest_anchor_block_affirmation_map
        ⟨[], [⟨5, 55, .LeaderBlockCommit ⟨55, 5, 50, 0, 0, 0⟩⟩],
          [⟨0, 0, []⟩, ⟨1, 1, [AffirmationMapEntry.PoxAnchorBlockPresent]⟩],
          [NO_ANCHOR_BLOCK, 5],
          [⟨5, 55, 50, 0, 1, some 5, none⟩],
          [⟨6, List.replicate 5 AffirmationMapEntry.PoxAnchorBlockAbsent⟩]⟩
        ⟨fun h => some (h / 10), fun _ _ => none⟩ =
      some (List.replicate 5 AffirmationMapEntry.PoxAnchorBlockAbsent) ∧
    ¬ get_heaviest_anchor_block_affirmation_map
        ⟨[], [⟨5, 55, .LeaderBlockCommit ⟨55, 5, 50, 0, 0, 0⟩⟩],
          [⟨0, 0, []⟩, ⟨1, 1, [AffirmationMapEntry.PoxAnchorBlockPresent]⟩],
          [NO_ANCHOR_BLOCK, 5],
          [⟨5, 55, 50, 0, 1, some 5, none⟩],
          [⟨6, List.replicate 5 AffirmationMapEntry.PoxAnchorBlockAbsent⟩]⟩
        ⟨fun h => some (h / 10), fun _ _ => none⟩ =
      some [AffirmationMapEntry.PoxAnchorBlockPresent] := by
  constructor
  · rfl
  · decide

/-- The loop shared by both affirmation-map constructors (db.rs lines
633-655 and 736-756): for each reward cycle in `[start, start + count)`,
push A when the cycle has an elected anchor block and N otherwise. -/
def extend_with_cycles (st : BurnchainDBState) (start count : Nat)
    (am : AffirmationMap) : AffirmationMap :=
  am ++ (List.range' start count).map (fun rc =>
    if has_anchor_block st rc then AffirmationMapEntry.PoxAnchorBlockAbsent
    else AffirmationMapEntry.Nothing)

/-- The largest affirmation_id present in the interning table. -/
def maxAffirmationId (st : BurnchainDBState) : Nat :=
  st.affirmation_maps.foldl (fun m r => max m r.affirmation_id) 0

/-- The AUTOINCREMENT id SQLite assigns to the next `affirmation_maps` row:
one past the largest id ever used (ids are never reused, and rows are never
deleted). -/
def next_affirmation_id (st : BurnchainDBState) : Nat :=
  maxAffirmationId st + 1

/-- `insert_block_commit_affirmation_map` (db.rs lines 271-286): INSERT the
row, then read its id back by the encoded map (`.expect` on a failed
read-back is `none`). -/
def insert_block_commit_affirmation_map (st : BurnchainDBState)
    (am : AffirmationMap) : Option (BurnchainDBState × Nat) :=
  let st' := { st with affirmation_maps :=
    st.affirmation_maps ++ [⟨next_affirmation_id st, am.weight, am⟩] }
  match get_affirmation_map_id st' am with
  | some found => some (st', found)
  | none => none

/-- The row transformation of `update_block_commit_affirmation` (db.rs
lines 288-309). -/
def updateRow (bc : LeaderBlockCommitOp) (pad : Option Nat) (am_id : Nat)
    (md : BlockCommitMetadata) : BlockCommitMetadata :=
  if md.burn_block_hash == bc.burn_header_hash && md.txid == bc.txid then
    { md with affirmation_id := am_id, anchor_block_descendant := pad }
  else md

/-- `update_block_commit_affirmation` (db.rs lines 288-309): set
(affirmation_id, anchor_block_descendant) on the row keyed by the commit. -/
def update_block_commit_affirmation (st : BurnchainDBState)
    (bc : LeaderBlockCommitOp) (pad : Option Nat) (am_id : Nat) :
    BurnchainDBState :=
  { st with block_commit_metadata :=
      st.block_commit_metadata.map (updateRow bc pad am_id) }

/-- The common tail of both constructors (db.rs lines 671-697 and 785-819):
reuse the interned id when the map already exists, otherwise insert it;
then update the commit's metadata row. -/
def intern_and_update (st : BurnchainDBState) (bc : LeaderBlockCommitOp)
    (pad : Option Nat) (am : AffirmationMap) :
    Option (BurnchainDBState × Nat) :=
  match get_affirmation_map_id st am with
  | some am_id => some (update_block_commit_affirmation st bc pad am_id, am_id)
  | none =>
    match insert_block_commit_affirmation_map st am with
    | some (st', am_id) =>
      some (update_block_commit_affirmation st' bc pad am_id, am_id)
    | none => none

theorem foldl_max_base (l : List AffirmationMapRow) :
    ∀ a : Nat, a ≤ l.foldl (fun m r => max m r.affirmation_id) a := by
  induction l with
  | nil => intro a; simp
  | cons r l ih =>
    intro a
    calc a ≤ max a r.affirmation_id := Nat.le_max_left _ _
    _ ≤ l.foldl (fun m x => max m x.affirmation_id) (max a r.affirmation_id) :=
        ih _

theorem foldl_max_mem_le (l : List AffirmationMapRow) :
    ∀ (a : Nat) (r : AffirmationMapRow), r ∈ l →
      r.affirmation_id ≤ l.foldl (fun m x => max m x.affirmation_id) a := by
  induction l with
  | nil => intro a r hr; exact absurd hr (List.not_mem_nil r)
  | cons x l ih =>
    intro a r hr
    rcases List.mem_cons.mp hr with rfl | hr
    · calc r.affirmation_id ≤ max a r.affirmation_id := Nat.le_max_right _ _
      _ ≤ l.foldl (fun m y => max m y.affirmation_id)
            (max a r.affirmation_id) := foldl_max_base l _
    · exact ih _ r hr

theorem mem_id_lt_next (st : BurnchainDBState) (r : AffirmationMapRow)
    (hr : r ∈ st.affirmation_maps) :
    r.affirmation_id < next_affirmation_id st :=
  Nat.lt_succ_of_le (foldl_max_mem_le st.affirmation_maps 0 r hr)

theorem find_map_eq_of_nodup (l : List AffirmationMapRow)
    (am : AffirmationMap) (id : Nat)
    (hnd : (l.map (fun r => r.affirmation_id)).Nodup)
    (hfind : (l.find? (fun r => r.affirmation_map == am)).map
        (fun r => r.affirmation_id) = some id) :
    (l.find? (fun r => r.affirmation_id == id)).map
        (fun r => r.affirmation_map) = some am := by
  induction l with
  | nil => simp at hfind
  | cons r l ih =>
    rw [List.map_cons, List.nodup_cons] at hnd
    by_cases hm : (r.affirmation_map == am) = true
    · simp only [List.find?_cons, hm, Option.map_some',
        Option.some.injEq] at hfind
      have hidp : (r.affirmation_id == id) = true := beq_iff_eq.mpr hfind
      simp only [List.find?_cons, hidp, Option.map_some', Option.some.injEq]
      exact beq_iff_eq.mp hm
    · have hm' : (r.affirmation_map == am) = false := Bool.eq_false_iff.mpr hm
      simp only [List.find?_cons, hm'] at hfind
      obtain ⟨row, hrow, hrowid⟩ : ∃ row, l.find? (fun r =>
          r.affirmation_map == am) = some row ∧ row.affirmation_id = id := by
        cases hq : l.find? (fun r => r.affirmation_map == am) with
        | none => rw [hq] at hfind; simp at hfind
        | some row =>
          rw [hq] at hfind
          simp only [Option.map_some', Option.some.injEq] at hfind
          exact ⟨row, rfl, hfind⟩
      have hrowmem : row ∈ l := List.mem_of_find?_eq_some hrow
      have hne : (r.affirmation_id == id) = false := by
        rw [beq_eq_false_iff_ne]
        intro hEq
        apply hnd.1
        rw [hEq, ← hrowid]
        exact List.mem_map_of_mem (fun x => x.affirmation_id) hrowmem
      simp only [List.find?_cons, hne]
      exact ih hnd.2 (by rw [hrow]; simp [hrowid])

theorem find?_append_of_none {α : Type} (p : α → Bool) (l1 l2 : List α)
    (h : l1.find? p = none) : (l1 ++ l2).find? p = l2.find? p := by
  induction l1 with
  | nil => simp
  | cons x l ih =>
    rw [List.find?_cons] at h
    cases hx : p x with
    | true => rw [hx] at h; simp at h
    | false =>
      rw [hx] at h
      rw [List.cons_append, List.find?_cons, hx]
      exact ih h

theorem intern_and_update_spec (st : BurnchainDBState)
    (bc : LeaderBlockCommitOp) (pad : Option Nat) (am : AffirmationMap)
    (hnd : (st.affirmation_maps.map (fun r => r.affirmation_id)).Nodup) :
    ∃ stf id, intern_and_update st bc pad am = some (stf, id) ∧
      get_affirmation_map stf id = some am ∧
      stf.block_commit_metadata =
        st.block_commit_metadata.map (updateRow bc pad id) := by
  unfold intern_and_update
  cases hid : get_affirmation_map_id st am with
  | some am_id =>
    refine ⟨_, am_id, rfl, ?_, rfl⟩
    exact find_map_eq_of_nodup st.affirmation_maps am am_id hnd hid
  | none =>
    have hfindnone : st.affirmation_maps.find?
        (fun r => r.affirmation_map == am) = none := by
      unfold get_affirmation_map_id at hid
      cases hq : st.affirmation_maps.find?
          (fun r => r.affirmation_map == am) with
      | none => rfl
      | some row => rw [hq] at hid; simp at hid
    have hins : insert_block_commit_affirmation_map st am =
        some ({ st with affirmation_maps := st.affirmation_maps ++
          [⟨next_affirmation_id st, am.weight, am⟩] }, next_affirmation_id st)
        := by
      unfold insert_block_commit_affirmation_map
      dsimp only
      unfold get_affirmation_map_id
      dsimp only
      rw [find?_append_of_none _ _ _ hfindnone]
      simp [List.find?_cons]
    rw [hins]
    refine ⟨_, next_affirmation_id st, rfl, ?_, rfl⟩
    unfold get_affirmation_map update_block_commit_affirmation
    dsimp only
    have hold : st.affirmation_maps.find?
        (fun r => r.affirmation_id == next_affirmation_id st) = none := by
      rw [List.find?_eq_none]
      intro r hr
      simp only [beq_iff_eq]
      exact Nat.ne_of_lt (mem_id_lt_next st r hr)
    rw [find?_append_of_none _ _ _ hold]
    simp [List.find?_cons]

/-- `make_reward_phase_affirmation_map` (db.rs lines 700-820): assert the
parent linkage; with `anchor_block_descendant = Some` on the parent, start
from the parent's own affirmation map and extend per cycle up to the
child's cycle; with `None`, start from the EMPTY map and extend from cycle
1; intern and write back. -/
def make_reward_phase_affirmation_map (st : BurnchainDBState)
    (burnchain : Burnchain) (block_commit parent : LeaderBlockCommitOp) :
    Option (BurnchainDBState × Nat) :=
  if block_commit.parent_block_ptr = parent.block_height ∧
      block_commit.parent_vtxindex = parent.vtxindex then
    match get_commit_metadata st parent.burn_header_hash parent.txid with
    | none => none
    | some parent_metadata =>
      match burnchain.block_height_to_reward_cycle
          block_commit.block_height with
      | none => none
      | some child_reward_cycle =>
        match parent_metadata.anchor_block_descendant with
        | some parent_ab_rc =>
          match get_affirmation_map st parent_metadata.affirmation_id with
          | none => none
          | some am =>
            intern_and_update st block_commit (some parent_ab_rc)
              (extend_with_cycles st (am.length + 1)
                (child_reward_cycle - am.length) am)
        | none =>
          intern_and_update st block_commit none
            (extend_with_cycles st 1 child_reward_cycle [])
  else none

/-- C8, amended.  `make_reward_phase_affirmation_map(C, P)` requires
`C.parent_block_ptr == P.height` and `C.parent_vtxindex == P.vtxindex`.
When P's `anchor_block_descendant` is `Some`, the constructed map starts
from P's affirmation map and, for every reward cycle from P's map length +
1 up to C's reward cycle, appends A when the cycle has an elected anchor
block and N otherwise; but when it is `None` the map starts from the EMPTY
map and is built from cycle 1 (not from P's map).  In both cases C's
`anchor_block_descendant` is set to P's. -/
theorem C8_reward_phase_map (st : BurnchainDBState) (burnchain : Burnchain)
    (block_commit parent : LeaderBlockCommitOp) (pm : BlockCommitMetadata)
    (cc : Nat) (E : AffirmationMap)
    (hassert : block_commit.parent_block_ptr = parent.block_height ∧
      block_commit.parent_vtxindex = parent.vtxindex)
    (hpm : get_commit_metadata st parent.burn_header_hash parent.txid =
      some pm)
    (hcc : burnchain.block_height_to_reward_cycle block_commit.block_height =
      some cc)
    (hnd : (st.affirmation_maps.map (fun r => r.affirmation_id)).Nodup)
    (hbranch : (pm.anchor_block_descendant = none ∧
        E = extend_with_cycles st 1 cc []) ∨
      (∃ prc pam, pm.anchor_block_descendant = some prc ∧
        get_affirmation_map st pm.affirmation_id = some pam ∧
        E = extend_with_cycles st (pam.length + 1) (cc - pam.length) pam)) :
    ∃ stf id, make_reward_phase_affirmation_map st burnchain block_commit
        parent = some (stf, id) ∧
      get_affirmation_map stf id = some E ∧
      stf.block_commit_metadata = st.block_commit_metadata.map
        (updateRow block_commit pm.anchor_block_descendant id) := by
  unfold make_reward_phase_affirmation_map
  rw [if_pos hassert]
  rcases hbranch with ⟨hpad, hE⟩ | ⟨prc, pam, hpad, hpam, hE⟩
  · subst hE
    obtain ⟨stf, id, h1, h2, h3⟩ := intern_and_update_spec st block_commit
      none (extend_with_cycles st 1 cc []) hnd
    refine ⟨stf, id, ?_, h2, by rw [hpad]; exact h3⟩
    simp only [hpm, hcc, hpad]
    exact h1
  · subst hE
    obtain ⟨stf, id, h1, h2, h3⟩ := intern_and_update_spec st block_commit
      (some prc) (extend_with_cycles st (pam.length + 1) (cc - pam.length)
        pam) hnd
    refine ⟨stf, id, ?_, h2, by rw [hpad]; exact h3⟩
    simp only [hpm, hcc, hpad, hpam]
    exact h1

/-- Witness for the amended C8 theorem (the `Some` branch): parent map "p"
affirming the cycle-1 anchor, child in cycle 2, no further anchors — the
child's map is "pn" and it inherits the parent's descendancy. -/
theorem C8_reward_phase_map_witness :
    ∃ stf id, make_reward_phase_affirmation_map
        ⟨[], [⟨7, 70, .LeaderBlockCommit ⟨70, 7, 30, 0, 0, 0⟩⟩],
          [⟨0, 0, []⟩, ⟨1, 1, [AffirmationMapEntry.PoxAnchorBlockPresent]⟩],
          [NO_ANCHOR_BLOCK],
          [⟨7, 70, 30, 0, 1, none, some 1⟩, ⟨8, 80, 65, 0, 0, none, none⟩],
          []⟩
        ⟨fun h => some (h / 30), fun _ _ => none⟩
        ⟨80, 8, 65, 0, 30, 0⟩ ⟨70, 7, 30, 0, 0, 0⟩ = some (stf, id) ∧
      get_affirmation_map stf id = some [AffirmationMapEntry.PoxAnchorBlockPresent,
        AffirmationMapEntry.Nothing] ∧
      stf.block_commit_metadata =
        ([⟨7, 70, 30, 0, 1, none, some 1⟩,
          ⟨8, 80, 65, 0, 0, none, none⟩] :
            List BlockCommitMetadata).map
          (updateRow ⟨80, 8, 65, 0, 30, 0⟩ (some 1) id) :=
  C8_reward_phase_map
    ⟨[], [⟨7, 70, .LeaderBlockCommit ⟨70, 7, 30, 0, 0, 0⟩⟩],
      [⟨0, 0, []⟩, ⟨1, 1, [AffirmationMapEntry.PoxAnchorBlockPresent]⟩],
      [NO_ANCHOR_BLOCK],
      [⟨7, 70, 30, 0, 1, none, some 1⟩, ⟨8, 80, 65, 0, 0, none, none⟩],
      []⟩
    ⟨fun h => some (h / 30), fun _ _ => none⟩
    ⟨80, 8, 65, 0, 30, 0⟩ ⟨70, 7, 30, 0, 0, 0⟩
    ⟨7, 70, 30, 0, 1, none, some 1⟩ 2
    [AffirmationMapEntry.PoxAnchorBlockPresent, AffirmationMapEntry.Nothing]
    (by decide) (by decide) (by decide) (by decide)
    (Or.inr ⟨1, [AffirmationMapEntry.PoxAnchorBlockPresent],
      by decide, by decide, by decide⟩)

/-- C8, counterexample.  A parent with a non-empty affirmation map "p" but
`anchor_block_descendant = None`: the code rebuilds the child's map from
the EMPTY map starting at cycle 1 and yields "n", which does not start from
the parent's map "p" — refuting the claim that the constructed map always
starts from the parent's affirmation map. -/
theorem C8_counterexample :
    (make_reward_phase_affirmation_map
        ⟨[], [⟨7, 70, .LeaderBlockCommit ⟨70, 7, 30, 0, 0, 0⟩⟩],
          [⟨0, 0, []⟩, ⟨1, 1, [AffirmationMapEntry.PoxAnchorBlockPresent]⟩],
          [NO_ANCHOR_BLOCK],
          [⟨7, 70, 30, 0, 1, none, none⟩, ⟨8, 80, 35, 0, 0, none, none⟩],
          []⟩
        ⟨fun h => some (h / 30), fun _ _ => none⟩
        ⟨80, 8, 35, 0, 30, 0⟩ ⟨70, 7, 30, 0, 0, 0⟩).map
        (fun r => get_affirmation_map r.1 r.2) =
      some (some [AffirmationMapEntry.Nothing]) ∧
    get_affirmation_map
        ⟨[], [⟨7, 70, .LeaderBlockCommit ⟨70, 7, 30, 0, 0, 0⟩⟩],
          [⟨0, 0, []⟩, ⟨1, 1, [AffirmationMapEntry.PoxAnchorBlockPresent]⟩],
          [NO_ANCHOR_BLOCK],
          [⟨7, 70, 30, 0, 1, none, none⟩, ⟨8, 80, 35, 0, 0, none, none⟩],
          []⟩ 1 = some [AffirmationMapEntry.PoxAnchorBlockPresent] ∧
    ([AffirmationMapEntry.Nothing] : AffirmationMap).take 1 ≠
      [AffirmationMapEntry.PoxAnchorBlockPresent] := by
  refine ⟨?_, ?_, ?_⟩
  · rfl
  · rfl
  · decide

/-- `make_prepare_phase_affirmation_map` (db.rs lines 519-698).  Resolve the
parent through the header-reader; a missing parent returns id 0 without
touching the store.  With an anchor-block commit AB supplied, start from
AB's own map and push P or A by `descends_from_anchor_block`.  With AB
absent, branch on the parent's `anchor_block_descendant`: when
`Some(rc_prev)`, load the affirmation map of that prior anchor block's
commit and push P only when its length < rc_prev; when `None`, start from
the parent's own map and push N when its length < the parent's cycle; then
extend per cycle up to this commit's cycle.  Intern and write back. -/
def make_prepare_phase_affirmation_map (st : BurnchainDBState)
    (indexer : BurnchainHeaderReader) (burnchain : Burnchain)
    (reward_cycle : Nat) (block_commit : LeaderBlockCommitOp)
    (anchor_block : Option LeaderBlockCommitOp)
    (descends_from_anchor_block : Bool) : Option (BurnchainDBState × Nat) :=
  match get_commit_at st indexer block_commit.parent_block_ptr
      block_commit.parent_vtxindex with
  | none => some (st, 0)
  | some parent =>
    match get_commit_metadata st parent.burn_header_hash parent.txid with
    | none => none
    | some parent_metadata =>
      match anchor_block with
      | some ab =>
        match get_affirmation_map_id_at st ab.burn_header_hash ab.txid with
        | none => none
        | some anchor_am_id =>
          match get_affirmation_map st anchor_am_id with
          | none => none
          | some am =>
            if descends_from_anchor_block then
              intern_and_update st block_commit (some reward_cycle)
                (am ++ [AffirmationMapEntry.PoxAnchorBlockPresent])
            else
              intern_and_update st block_commit
                parent_metadata.anchor_block_descendant
                (am ++ [AffirmationMapEntry.PoxAnchorBlockAbsent])
      | none =>
        match burnchain.get_parent_child_reward_cycles parent block_commit with
        | none => none
        | some (parent_reward_cycle, _) =>
          match parent_metadata.anchor_block_descendant with
          | some parent_ab_rc =>
            match get_anchor_block_commit st parent_ab_rc with
            | none => none
            | some none => none
            | some (some (_, ab_metadata)) =>
              match get_affirmation_map st ab_metadata.affirmation_id with
              | none => none
              | some am =>
                let am1 := if am.length < parent_ab_rc then
                  am ++ [AffirmationMapEntry.PoxAnchorBlockPresent] else am
                intern_and_update st block_commit (some parent_ab_rc)
                  (extend_with_cycles st (am1.length + 1)
                    (reward_cycle - am1.length) am1)
          | none =>
            match get_affirmation_map st parent_metadata.affirmation_id with
            | none => none
            | some parent_am =>
              let am1 := if parent_am.length < parent_reward_cycle then
                parent_am ++ [AffirmationMapEntry.Nothing] else parent_am
              intern_and_update st block_commit none
                (extend_with_cycles st (am1.length + 1)
                  (reward_cycle - am1.length) am1)

/-- C9.  In `make_prepare_phase_affirmation_map`, with no anchor-block
commit supplied for the current cycle and the parent's
`anchor_block_descendant = Some(rc_prev)`, the constructed map starts from
the affirmation map `m` of the anchor-block commit of cycle `rc_prev` (not
from the parent's own map); a P entry is appended exactly when
`len(m) < rc_prev`; and the map is then extended for every remaining cycle
up to the commit's reward cycle with A where the cycle has an elected
anchor block and N otherwise. -/
theorem C9_prepare_phase_prior_anchor (st : BurnchainDBState)
    (indexer : BurnchainHeaderReader) (burnchain : Burnchain)
    (reward_cycle : Nat) (block_commit parent : LeaderBlockCommitOp)
    (pm : BlockCommitMetadata) (prc ccx ab_rc : Nat)
    (abcommit : LeaderBlockCommitOp) (abmd : BlockCommitMetadata)
    (m : AffirmationMap)
    (hpar : get_commit_at st indexer block_commit.parent_block_ptr
      block_commit.parent_vtxindex = some parent)
    (hpm : get_commit_metadata st parent.burn_header_hash parent.txid =
      some pm)
    (hpc : burnchain.get_parent_child_reward_cycles parent block_commit =
      some (prc, ccx))
    (hpad : pm.anchor_block_descendant = some ab_rc)
    (habc : get_anchor_block_commit st ab_rc = some (some (abcommit, abmd)))
    (habm : get_affirmation_map st abmd.affirmation_id = some m)
    (hnd : (st.affirmation_maps.map (fun r => r.affirmation_id)).Nodup) :
    ∃ stf id, make_prepare_phase_affirmation_map st indexer burnchain
        reward_cycle block_commit none false = some (stf, id) ∧
      get_affirmation_map stf id = some
        (extend_with_cycles st
          ((if m.length < ab_rc then
              m ++ [AffirmationMapEntry.PoxAnchorBlockPresent] else m).length
            + 1)
          (reward_cycle - (if m.length < ab_rc then
              m ++ [AffirmationMapEntry.PoxAnchorBlockPresent]
            else m).length)
          (if m.length < ab_rc then
            m ++ [AffirmationMapEntry.PoxAnchorBlockPresent] else m)) ∧
      stf.block_commit_metadata = st.block_commit_metadata.map
        (updateRow block_commit (some ab_rc) id) := by
  unfold make_prepare_phase_affirmation_map
  obtain ⟨stf, id, h1, h2, h3⟩ := intern_and_update_spec st block_commit
    (some ab_rc)
    (extend_with_cycles st
      ((if m.length < ab_rc then
          m ++ [AffirmationMapEntry.PoxAnchorBlockPresent] else m).length + 1)
      (reward_cycle - (if m.length < ab_rc then
          m ++ [AffirmationMapEntry.PoxAnchorBlockPresent] else m).length)
      (if m.length < ab_rc then
        m ++ [AffirmationMapEntry.PoxAnchorBlockPresent] else m)) hnd
  refine ⟨stf, id, ?_, h2, h3⟩
  simp only [hpar, hpm, hpc, hpad, habc, habm]
  exact h1

/-- Witness for C9: the prior anchor block at cycle 2 has map "a" of length
1 < 2, so P is appended, and cycle 3 (no anchor) adds N: the commit's map
is "apn". -/
theorem C9_prepare_phase_prior_anchor_witness :
    ∃ stf id, make_prepare_phase_affirmation_map
        ⟨[], [⟨7, 70, .LeaderBlockCommit ⟨70, 7, 30, 0, 0, 0⟩⟩,
              ⟨9, 90, .LeaderBlockCommit ⟨90, 9, 15, 0, 0, 0⟩⟩],
          [⟨0, 0, []⟩, ⟨1, 1, [AffirmationMapEntry.PoxAnchorBlockPresent]⟩,
            ⟨2, 1, [AffirmationMapEntry.PoxAnchorBlockAbsent]⟩],
          [NO_ANCHOR_BLOCK, 2],
          [⟨7, 70, 30, 0, 1, none, some 2⟩, ⟨9, 90, 15, 0, 2, some 2, none⟩,
            ⟨8, 80, 65, 0, 0, none, none⟩],
          []⟩
        ⟨fun s _ => if s = 30 then [⟨30, 7, 0, 0, 0⟩] else []⟩
        ⟨fun h => some (h / 30), fun _ _ => some (1, 2)⟩
        3 ⟨80, 8, 65, 0, 30, 0⟩ none false = some (stf, id) ∧
      get_affirmation_map stf id = some
        (extend_with_cycles
          ⟨[], [⟨7, 70, .LeaderBlockCommit ⟨70, 7, 30, 0, 0, 0⟩⟩,
                ⟨9, 90, .LeaderBlockCommit ⟨90, 9, 15, 0, 0, 0⟩⟩],
            [⟨0, 0, []⟩, ⟨1, 1, [AffirmationMapEntry.PoxAnchorBlockPresent]⟩,
              ⟨2, 1, [AffirmationMapEntry.PoxAnchorBlockAbsent]⟩],
            [NO_ANCHOR_BLOCK, 2],
            [⟨7, 70, 30, 0, 1, none, some 2⟩,
              ⟨9, 90, 15, 0, 2, some 2, none⟩,
              ⟨8, 80, 65, 0, 0, none, none⟩],
            []⟩
          ((if ([AffirmationMapEntry.PoxAnchorBlockAbsent] :
              AffirmationMap).length < 2 then
              [AffirmationMapEntry.PoxAnchorBlockAbsent] ++
                [AffirmationMapEntry.PoxAnchorBlockPresent]
            else [AffirmationMapEntry.PoxAnchorBlockAbsent]).length + 1)
          (3 - (if ([AffirmationMapEntry.PoxAnchorBlockAbsent] :
              AffirmationMap).length < 2 then
              [AffirmationMapEntry.PoxAnchorBlockAbsent] ++
                [AffirmationMapEntry.PoxAnchorBlockPresent]
            else [AffirmationMapEntry.PoxAnchorBlockAbsent]).length)
          (if ([AffirmationMapEntry.PoxAnchorBlockAbsent] :
              AffirmationMap).length < 2 then
            [AffirmationMapEntry.PoxAnchorBlockAbsent] ++
              [AffirmationMapEntry.PoxAnchorBlockPresent]
          else [AffirmationMapEntry.PoxAnchorBlockAbsent])) ∧
      stf.block_commit_metadata =
        ([⟨7, 70, 30, 0, 1, none, some 2⟩, ⟨9, 90, 15, 0, 2, some 2, none⟩,
          ⟨8, 80, 65, 0, 0, none, none⟩] : List BlockCommitMetadata).map
          (updateRow ⟨80, 8, 65, 0, 30, 0⟩ (some 2) id) :=
  C9_prepare_phase_prior_anchor
    ⟨[], [⟨7, 70, .LeaderBlockCommit ⟨70, 7, 30, 0, 0, 0⟩⟩,
          ⟨9, 90, .LeaderBlockCommit ⟨90, 9, 15, 0, 0, 0⟩⟩],
      [⟨0, 0, []⟩, ⟨1, 1, [AffirmationMapEntry.PoxAnchorBlockPresent]⟩,
        ⟨2, 1, [AffirmationMapEntry.PoxAnchorBlockAbsent]⟩],
      [NO_ANCHOR_BLOCK, 2],
      [⟨7, 70, 30, 0, 1, none, some 2⟩, ⟨9, 90, 15, 0, 2, some 2, none⟩,
        ⟨8, 80, 65, 0, 0, none, none⟩],
      []⟩
    ⟨fun s _ => if s = 30 then [⟨30, 7, 0, 0, 0⟩] else []⟩
    ⟨fun h => some (h / 30), fun _ _ => some (1, 2)⟩
    3 ⟨80, 8, 65, 0, 30, 0⟩ ⟨70, 7, 30, 0, 0, 0⟩
    ⟨7, 70, 30, 0, 1, none, some 2⟩ 1 2 2
    ⟨90, 9, 15, 0, 0, 0⟩ ⟨9, 90, 15, 0, 2, some 2, none⟩
    [AffirmationMapEntry.PoxAnchorBlockAbsent]
    (by decide) (by decide) (by decide) (by decide) (by decide) (by decide)
    (by decide)
